import Mathlib

/-!
Shallow embedding of the tabular-data cleaning pipeline in
src/data-cleaner.py (class UltimateDataPipeline), together with proofs
about its stages.

Modelling conventions:
* A pandas DataFrame is a DF: an explicit row count (the index length)
  plus a list of named, dtype-tagged columns; a cell is an Option Val,
  none being the missing marker (NaN).  Numeric values are rationals.
* Characters are modelled at the ASCII level: Python str.strip, str.lower
  and the regex classes \w and \s are given their ASCII meanings.
* pandas quantile/median use linear interpolation on the sorted present
  values; both are reproduced exactly over the rationals.
* The stages mutate self.df in place in Python; here each stage maps a
  Pipeline value to a new Pipeline value.  handle_outliers can raise
  ValueError, so it returns an Except whose error carries the message
  and the pipeline state at the moment of the raise.
* logger.info / logger.warning / logger.error calls are modelled as
  structured LogEvent values appended to Pipeline.log; self.report is
  the dict built in UltimateDataPipeline.init, never touched afterwards.
-/

namespace DataCleaner

/-- Whitespace characters recognized by Python str.strip and the regex
class backslash-s, restricted to ASCII: space, tab, newline, carriage
return, vertical tab and form feed, by code point. -/
def isPySpace (c : Char) : Bool :=
  c.toNat = 32 || c.toNat = 9 || c.toNat = 10 || c.toNat = 13 ||
    c.toNat = 11 || c.toNat = 12

/-- Word characters, the regex class backslash-w restricted to ASCII:
latin letters, digits and the underscore, by code point. -/
def isWordChar (c : Char) : Bool :=
  (65 ≤ c.toNat && c.toNat ≤ 90) || (97 ≤ c.toNat && c.toNat ≤ 122) ||
    (48 ≤ c.toNat && c.toNat ≤ 57) || c.toNat = 95

/-- Python str.strip on a character list: drop leading and trailing
whitespace. -/
def stripL (l : List Char) : List Char :=
  ((l.dropWhile isPySpace).reverse.dropWhile isPySpace).reverse

/-- Python str.strip on a string. -/
def pyStrip (s : String) : String := String.mk (stripL s.data)

/-- The column-name normalization of standardize, on character lists:
strip, lowercase, replace each space with an underscore, then delete
every character that is neither a word character nor whitespace
(the regex r"[^\w\s]" with an empty replacement). -/
def transformNameL (l : List Char) : List Char :=
  (((stripL l).map Char.toLower).map (fun c => if c = ' ' then '_' else c)).filter
    (fun c => isWordChar c || isPySpace c)

/-- The column-name normalization of standardize. -/
def transformName (s : String) : String := String.mk (transformNameL s.data)

/-- A cell value: a number or a piece of text. -/
inductive Val where
  | num (q : ℚ)
  | str (s : String)
deriving DecidableEq

/-- A cell: a present value or the missing marker (NaN). -/
abbrev Cell := Option Val

/-- Logical column dtypes: float/int, object, category, datetime64. -/
inductive DType where
  | numeric
  | text
  | category
  | datetime
deriving DecidableEq

/-- One named, homogeneously typed column. -/
structure Col where
  name : String
  dtype : DType
  cells : List Cell
deriving DecidableEq

instance : Inhabited Col := ⟨⟨"", DType.text, []⟩⟩

/-- The in-memory table: an index length plus the columns. -/
structure DF where
  nrows : Nat
  cols : List Col
deriving DecidableEq

/-- pandas DataFrame.empty: true when either axis has length zero. -/
def DF.isEmpty (df : DF) : Bool := df.nrows == 0 || df.cols.isEmpty

def DF.ncols (df : DF) : Nat := df.cols.length

def DF.colAt (df : DF) (j : Nat) : Col := df.cols.getD j default

def DF.cellAt (df : DF) (j i : Nat) : Cell := (df.colAt j).cells.getD i none

/-- The i-th row, as the tuple of its cells across all columns. -/
def DF.rowAt (df : DF) (i : Nat) : List Cell :=
  df.cols.map (fun c => c.cells.getD i none)

/-- The rows of the table, in index order. -/
def DF.rows (df : DF) : List (List Cell) := (List.range df.nrows).map df.rowAt

/-- Dtype/value agreement for one cell: numeric and datetime columns hold
numbers, object and category columns hold text; missing is always fine. -/
def cellOk : DType → Cell → Bool
  | _, none => true
  | DType.numeric, some (Val.num _) => true
  | DType.datetime, some (Val.num _) => true
  | DType.text, some (Val.str _) => true
  | DType.category, some (Val.str _) => true
  | _, _ => false

/-- Well-formedness: every column has exactly nrows cells and its cells
agree with its dtype. -/
def DF.wf (df : DF) : Bool :=
  df.cols.all (fun c => c.cells.length == df.nrows && c.cells.all (cellOk c.dtype))

/-- The numeric content of a cell, if any. -/
def cellNum : Cell → Option ℚ
  | some (Val.num q) => some q
  | _ => none

/-- The present numeric values of a column, in index order. -/
def presentNums (cells : List Cell) : List ℚ := cells.filterMap cellNum

/-- The present numeric values, sorted ascending. -/
def sortedNums (cells : List Cell) : List ℚ :=
  (presentNums cells).insertionSort (· ≤ ·)

/-- Linear-interpolation quantile of an ascending list, exactly as
numpy/pandas compute Series.quantile over the present values.  pandas
returns NaN on an empty column, which makes the IQR comparison to zero
false and every bound comparison false; returning 0 here instead routes
those columns through the IQR-equals-zero skip path, which has the same
net effect on the stage (the column is left untouched, nothing flagged). -/
def quantileSorted (s : List ℚ) (q : ℚ) : ℚ :=
  if s.isEmpty then 0
  else
    let h : ℚ := q * ((s.length : ℚ) - 1)
    let i : Nat := (⌊h⌋).toNat
    let lo := s.getD i 0
    let hi := s.getD (i + 1) lo
    lo + (h - (i : ℚ)) * (hi - lo)

def colQ1 (cells : List Cell) : ℚ := quantileSorted (sortedNums cells) (1/4)

def colQ3 (cells : List Cell) : ℚ := quantileSorted (sortedNums cells) (3/4)

def colIQR (cells : List Cell) : ℚ := colQ3 cells - colQ1 cells

/-- Median of an ascending list, as pandas Series.median computes it over
the present values: middle element for odd length, mean of the two middle
elements for even length. -/
def medianSorted (s : List ℚ) : ℚ :=
  let n := s.length
  if n % 2 == 1 then s.getD (n / 2) 0
  else (s.getD (n / 2 - 1) 0 + s.getD (n / 2) 0) / 2

/-- Median of the present numeric values of a column. -/
def medianOf (cells : List Cell) : ℚ := medianSorted (sortedNums cells)

/-- Lexicographic comparison of character lists by code point, the order
Python uses on strings. -/
def charListLE : List Char → List Char → Bool
  | [], _ => true
  | _ :: _, [] => false
  | a :: as, b :: bs =>
    if a.toNat < b.toNat then true
    else if b.toNat < a.toNat then false
    else charListLE as bs

/-- The sort order pandas uses on cell values: numeric order on numbers,
lexicographic order on text.  The cross-constructor cases are arbitrary;
a homogeneously typed column never compares across constructors. -/
def valLE : Val → Val → Bool
  | Val.num a, Val.num b => a ≤ b
  | Val.str a, Val.str b => charListLE a.data b.data
  | Val.num _, Val.str _ => true
  | Val.str _, Val.num _ => false

/-- The present values of a column, in index order. -/
def presentVals (cells : List Cell) : List Val := cells.filterMap id

/-- Least element of a list under a boolean comparison, if the list is
nonempty. -/
def listMinBy (le : α → α → Bool) : List α → Option α
  | [] => none
  | a :: as => some (as.foldl (fun m b => if le b m then b else m) a)

/-- pandas Series.mode()[0]: among the present values of maximal
frequency, the one that sorts first; none when the column has no present
value. -/
def modeVal (cells : List Cell) : Option Val :=
  let ps := presentVals cells
  let cands := ps.dedup
  let best := cands.filter (fun v => cands.all (fun w => ps.count w ≤ ps.count v))
  listMinBy valLE best

/-- fillna with one value on one cell: present cells are untouched. -/
def fillCell (v : Val) : Cell → Cell
  | none => some v
  | c => c

/-- One imputation step on a column, from impute_missing: if the column
has a missing value, numeric dtypes are filled with the median of the
present values (an all-missing numeric column has median NaN, and
fillna(NaN) leaves it untouched), every other dtype is filled with the
mode when one exists. -/
def imputeCells (dtype : DType) (cells : List Cell) : List Cell :=
  if cells.any (fun c => c.isNone) then
    match dtype with
    | DType.numeric =>
      if (presentNums cells).isEmpty then cells
      else cells.map (fillCell (Val.num (medianOf cells)))
    | _ =>
      match modeVal cells with
      | none => cells
      | some v => cells.map (fillCell v)
  else cells

/-- Fold a per-column update over a list of column positions, reading and
writing one column at a time, as the Python for-loops over df.columns do. -/
def updCols (f : Col → Col) (ord : List Nat) (cs : List Col) : List Col :=
  ord.foldl (fun acc j => acc.set j (f (acc.getD j default))) cs

def imputeColF (c : Col) : Col := { c with cells := imputeCells c.dtype c.cells }

/-- impute_missing over the columns in a given processing order. -/
def imputeFold (ord : List Nat) (df : DF) : DF :=
  { df with cols := updCols imputeColF ord df.cols }

/-- impute_missing on the table: the loop over df.columns in order. -/
def imputeDF (df : DF) : DF := imputeFold (List.range df.cols.length) df

/-- astype(str) on one cell of an object column: NaN stringifies to the
literal text nan.  A stray numeric value inside an object column (never
present in a well-formed table) is stringified through the rational
number printer as a stand-in for the Python float printer. -/
def cellToStr : Cell → String
  | none => "nan"
  | some (Val.str s) => s
  | some (Val.num q) => toString q

/-- The per-cell transform of standardize on object columns:
astype(str).str.strip(). -/
def stdTextCell (c : Cell) : Cell := some (Val.str (pyStrip (cellToStr c)))

/-- standardize on one column: normalize the name; trim the cells when the
column is an object (text) column.  select_dtypes(include=[object]) picks
exactly the text columns. -/
def stdCol (c : Col) : Col :=
  { name := transformName c.name
    dtype := c.dtype
    cells := if c.dtype = DType.text then c.cells.map stdTextCell else c.cells }

/-- standardize on the table.  The Python loop treats each object column
independently, so it is a map over the columns. -/
def standardizeDF (df : DF) : DF := { df with cols := df.cols.map stdCol }

/-- Keep the entries of a list selected by a boolean mask, the semantics
of pandas boolean row indexing df[mask]. -/
def applyMask : List Bool → List α → List α
  | true :: bs, x :: xs => x :: applyMask bs xs
  | false :: bs, _ :: xs => applyMask bs xs
  | _, _ => []

/-- pandas duplicated(): mark each row that equals an earlier row, missing
markers comparing equal to each other. -/
def dupMarks (seen : List (List Cell)) : List (List Cell) → List Bool
  | [] => []
  | r :: rs => decide (r ∈ seen) :: dupMarks (r :: seen) rs

/-- Restrict the table to the rows selected by a boolean mask over the
index. -/
def maskDF (df : DF) (mask : List Bool) : DF :=
  { nrows := mask.count true
    cols := df.cols.map (fun c => { c with cells := applyMask mask c.cells }) }

/-- A fully missing row, the how=all criterion of dropna. -/
def allMissingRow (r : List Cell) : Bool := r.all (fun c => c.isNone)

/-- handle_garbage on a nonempty table: drop_duplicates(keep=first)
followed by dropna(how=all). -/
def garbageDF (df : DF) : DF :=
  let keep1 := (dupMarks [] df.rows).map (fun b => !b)
  let d1 := maskDF df keep1
  let keep2 := d1.rows.map (fun r => !allMissingRow r)
  maskDF d1 keep2

/-- The column positions select_dtypes(include=[np.number]) picks. -/
def numIdx (df : DF) : List Nat :=
  (List.range df.cols.length).filter
    (fun j => (df.cols.getD j default).dtype == DType.numeric)

/-- The lower bound Q1 minus threshold times IQR of handle_outliers. -/
def lbOf (t : ℚ) (cells : List Cell) : ℚ := colQ1 cells - t * colIQR cells

/-- The upper bound Q3 plus threshold times IQR of handle_outliers. -/
def ubOf (t : ℚ) (cells : List Cell) : ℚ := colQ3 cells + t * colIQR cells

/-- Does a column hold a value strictly outside the given bounds?  The
has_outliers test of the cap branch. -/
def colHasOut (lb ub : ℚ) (cells : List Cell) : Bool :=
  cells.any (fun c => match cellNum c with
    | some x => decide (x < lb) || decide (ub < x)
    | none => false)

/-- np.where(col < lower_bound, lower_bound, col) on one cell: NaN
compares false and is kept. -/
def clipLow (lb : ℚ) : Cell → Cell
  | some (Val.num x) => some (Val.num (if x < lb then lb else x))
  | c => c

/-- np.where(col > upper_bound, upper_bound, col) on one cell. -/
def clipHigh (ub : ℚ) : Cell → Cell
  | some (Val.num x) => some (Val.num (if ub < x then ub else x))
  | c => c

/-- The cap branch of handle_outliers on one numeric column: skip when
IQR is zero, otherwise when some value lies outside the bounds clip low
values to the lower bound and then clip high values to the upper bound,
exactly the two sequential np.where passes of the source. -/
def capCells (t : ℚ) (cells : List Cell) : List Cell :=
  if colIQR cells = 0 then cells
  else
    let lb := lbOf t cells
    let ub := ubOf t cells
    if colHasOut lb ub cells then (cells.map (clipLow lb)).map (clipHigh ub)
    else cells

def capColF (t : ℚ) (c : Col) : Col := { c with cells := capCells t c.cells }

/-- The cap branch over all numeric columns, in column order. -/
def capDF (t : ℚ) (df : DF) : DF :=
  { df with cols := updCols (capColF t) (numIdx df) df.cols }

/-- The outlier_cols counter of the cap branch. -/
def capCount (t : ℚ) (df : DF) : Nat :=
  (numIdx df).countP (fun j =>
    let cells := (df.cols.getD j default).cells
    !(colIQR cells == 0) && colHasOut (lbOf t cells) (ubOf t cells) cells)

/-- Survival of one cell in the remove branch: within bounds, or missing
(NaN is kept, as the source comments insist). -/
def survCell (t : ℚ) (cells : List Cell) (c : Cell) : Bool :=
  match cellNum c with
  | some x => decide (lbOf t cells ≤ x) && decide (x ≤ ubOf t cells)
  | none => true

/-- The per-column survival mask of the remove branch. -/
def colMask (t : ℚ) (cells : List Cell) : List Bool :=
  cells.map (survCell t cells)

def andMask (a b : List Bool) : List Bool := List.zipWith and a b

/-- One loop iteration of the remove branch: columns with zero IQR are
skipped, the others restrict the combined mask. -/
def removeStep (t : ℚ) (df : DF) (m : List Bool) (j : Nat) : List Bool :=
  if colIQR ((df.cols.getD j default).cells) = 0 then m
  else andMask m (colMask t ((df.cols.getD j default).cells))

/-- The combined row mask of the remove branch: start all true, fold in
each numeric column with nonzero IQR. -/
def removeMask (t : ℚ) (df : DF) : List Bool :=
  (numIdx df).foldl (removeStep t df) (List.replicate df.nrows true)

/-- The remove branch of handle_outliers on a nonempty table. -/
def removeDF (t : ℚ) (df : DF) : DF := maskDF df (removeMask t df)

/-- Structured stand-ins for the logger.info / warning / error calls. -/
inductive LogEvent where
  | loaded (r c : Nat)
  | standardized
  | standardizeSkippedEmpty
  | garbageRemoved (n : Nat)
  | garbageClean
  | imputedCols (n : Nat)
  | imputedNone
  | outliersRemovedRows (n : Nat)
  | outliersRemovedNone
  | outliersCappedCols (n : Nat)
  | outliersCappedNone
  | methodNotRecognized (m : String)
  | optimized
deriving DecidableEq

/-- The run report: the dict self.report, a list of keyed shapes.  The
constructor stores initial_shape; no stage ever writes to it. -/
abbrev Report := List (String × Nat × Nat)

/-- The pipeline state: the mutable DataFrame, the report dict, and the
stream of emitted log events. -/
structure Pipeline where
  df : DF
  report : Report
  log : List LogEvent
deriving DecidableEq

/-- UltimateDataPipeline construction after ingestion produced df. -/
def initPipeline (df : DF) : Pipeline :=
  { df := df
    report := [("initial_shape", df.nrows, df.ncols)]
    log := [LogEvent.loaded df.nrows df.ncols] }

/-- Stage 1, standardize: skip (with a warning) on an empty table,
otherwise normalize names and trim text cells. -/
def standardize (p : Pipeline) : Pipeline :=
  if p.df.isEmpty then { p with log := p.log ++ [LogEvent.standardizeSkippedEmpty] }
  else { p with df := standardizeDF p.df, log := p.log ++ [LogEvent.standardized] }

/-- Stage 2, handle_garbage: skip on an empty table, otherwise drop
duplicates then fully missing rows, logging the removed count. -/
def handle_garbage (p : Pipeline) : Pipeline :=
  if p.df.isEmpty then p
  else
    let d := garbageDF p.df
    let removed := p.df.nrows - d.nrows
    { p with
        df := d
        log := p.log ++
          [if 0 < removed then LogEvent.garbageRemoved removed else LogEvent.garbageClean] }

/-- Stage 3, impute_missing: skip on an empty table, otherwise impute
column by column, logging how many columns had a missing value. -/
def impute_missing (p : Pipeline) : Pipeline :=
  if p.df.isEmpty then p
  else
    let n := p.df.cols.countP (fun c => c.cells.any (fun x => x.isNone))
    { p with
        df := imputeDF p.df
        log := p.log ++
          [if 0 < n then LogEvent.imputedCols n else LogEvent.imputedNone] }

/-- Stage 4, handle_outliers: skip on an empty table; dispatch on the
method; any unrecognized method raises ValueError after only a
logger.error call, so the error carries the state with just that log
line appended. -/
def handle_outliers (t : ℚ) (method : String) (p : Pipeline) :
    Except (String × Pipeline) Pipeline :=
  if p.df.isEmpty then Except.ok p
  else if method = "remove" then
    let d := removeDF t p.df
    let removed := p.df.nrows - d.nrows
    Except.ok { p with
      df := d
      log := p.log ++
        [if 0 < removed then LogEvent.outliersRemovedRows removed
         else LogEvent.outliersRemovedNone] }
  else if method = "cap" then
    let n := capCount t p.df
    Except.ok { p with
      df := capDF t p.df
      log := p.log ++
        [if 0 < n then LogEvent.outliersCappedCols n
         else LogEvent.outliersCappedNone] }
  else
    Except.error ("Metodo no valido: " ++ method,
      { p with log := p.log ++ [LogEvent.methodNotRecognized method] })

/-- Substring test on character lists, for the date-name heuristic. -/
def hasSubstr (pat s : List Char) : Bool :=
  (List.range (s.length + 1)).any (fun k => pat.isPrefixOf (s.drop k))

/-- Read a nonempty all-digit character list as a number. -/
def digitsToNat (l : List Char) : Option Nat :=
  l.foldl
    (fun acc c => match acc with
      | none => none
      | some n => if c.isDigit then some (n * 10 + (c.toNat - 48)) else none)
    (some 0)

/-- Modelled from the spec: pandas to_datetime with errors=coerce on one
cell (the library call is external to the repository).  ISO dates
YYYY-MM-DD parse to the number y*10000+m*100+d; any other text coerces to
missing; numeric input is kept as an already numeric timestamp. -/
def parseDateCell (c : Cell) : Cell :=
  match c with
  | some (Val.str s) =>
    match s.data with
    | [a, b, c2, d, s1, e, f, s2, g, k] =>
      if s1 = '-' && s2 = '-' then
        match digitsToNat [a, b, c2, d], digitsToNat [e, f], digitsToNat [g, k] with
        | some y, some m, some dd =>
          if 1 ≤ m && m ≤ 12 && 1 ≤ dd && dd ≤ 31 then
            some (Val.num ((y * 10000 + m * 100 + dd : Nat) : ℚ))
          else none
        | _, _, _ => none
      else none
    | _ => none
  | some (Val.num q) => some (Val.num q)
  | none => none

/-- Series.nunique(): the number of distinct present values. -/
def nuniqueCells (cells : List Cell) : Nat := (cells.filterMap id).dedup.length

/-- optimize on one column: convert date-named columns to datetime, then
dictionary-encode object columns whose distinct-value ratio is below 0.1
(the exact test nunique/len < 1/10 over the rationals). -/
def optimizeCol (nrows : Nat) (c : Col) : Col :=
  let lower := c.name.data.map Char.toLower
  let c1 :=
    if hasSubstr "fecha".data lower || hasSubstr "date".data lower then
      { c with dtype := DType.datetime, cells := c.cells.map parseDateCell }
    else c
  if c1.dtype == DType.text && decide (0 < nrows) &&
      decide (10 * nuniqueCells c1.cells < nrows) then
    { c1 with dtype := DType.category }
  else c1

def optimizeDF (df : DF) : DF :=
  { df with cols := df.cols.map (optimizeCol df.nrows) }

/-- Stage 5, optimize: skip on an empty table, otherwise reclassify the
columns. -/
def optimize (p : Pipeline) : Pipeline :=
  if p.df.isEmpty then p
  else { p with df := optimizeDF p.df, log := p.log ++ [LogEvent.optimized] }

/-! ### Generic list infrastructure -/

/-- Reading a list after setting a different position. -/
lemma getD_set_ne {l : List α} {i j : Nat} (x d : α) (h : i ≠ j) :
    (l.set i x).getD j d = l.getD j d := by
  simp [List.getD, List.getElem?_set_ne h]

/-- Reading a list after setting the same position. -/
lemma getD_set_self {l : List α} {i : Nat} (x d : α) :
    (l.set i x).getD i d = if i < l.length then x else l.getD i d := by
  by_cases h : i < l.length
  · simp [List.getD, List.getElem?_set_self, h]
  · simp [List.set_eq_of_length_le (Nat.le_of_not_lt h), h]

/-- A list is the map of its reads over its index range. -/
lemma self_eq_range_map_getD (l : List α) (d : α) :
    (List.range l.length).map (fun i => l.getD i d) = l := by
  apply List.ext_getElem
  · simp
  · intro i h₁ h₂
    simp [List.getD_eq_getElem?_getD, List.getElem?_eq_getElem h₂]

lemma length_updCols (f : Col → Col) (ord : List Nat) (cs : List Col) :
    (updCols f ord cs).length = cs.length := by
  induction ord generalizing cs with
  | nil => rfl
  | cons j js ih => simpa [updCols] using (ih (cs.set j (f (cs.getD j default)))).trans (by simp)

/-- Reading one column after the per-column update loop: positions listed
in a duplicate-free processing order are updated, all others untouched. -/
lemma getD_updCols (f : Col → Col) (ord : List Nat) (h : ord.Nodup) (cs : List Col)
    (j : Nat) :
    (updCols f ord cs).getD j default =
      if j ∈ ord ∧ j < cs.length then f (cs.getD j default) else cs.getD j default := by
  induction ord generalizing cs with
  | nil => simp [updCols]
  | cons k ks ih =>
    have hk : k ∉ ks := (List.nodup_cons.mp h).1
    have hks : ks.Nodup := (List.nodup_cons.mp h).2
    have step : updCols f (k :: ks) cs = updCols f ks (cs.set k (f (cs.getD k default))) := rfl
    rw [step, ih hks]
    by_cases hjk : j = k
    · subst hjk
      simp only [List.length_set]
      rw [if_neg (fun hcon => hk hcon.1), getD_set_self]
      have hmem : j ∈ j :: ks := List.mem_cons_self j ks
      by_cases hlt : j < cs.length
      · simp [hlt, hmem]
      · simp [hlt, hmem]
    · have hset : (cs.set k (f (cs.getD k default))).getD j default = cs.getD j default :=
        getD_set_ne _ _ (fun hkj => hjk hkj.symm)
      simp only [List.length_set, hset]
      by_cases hmem : j ∈ ks
      · simp [hmem, List.mem_cons, hjk]
      · simp [hmem, List.mem_cons, hjk]

lemma applyMask_sublist (m : List Bool) (l : List α) : List.Sublist (applyMask m l) l := by
  induction m generalizing l with
  | nil =>
    cases l <;> simp [applyMask]
  | cons b bs ih =>
    cases l with
    | nil => simp [applyMask]
    | cons x xs =>
      cases b with
      | true => exact List.Sublist.cons₂ x (ih xs)
      | false => exact List.Sublist.cons x (ih xs)

lemma applyMask_length {m : List Bool} {l : List α} (h : m.length = l.length) :
    (applyMask m l).length = m.count true := by
  induction m generalizing l with
  | nil => simp [applyMask]
  | cons b bs ih =>
    cases l with
    | nil => simp at h
    | cons x xs =>
      have h' : bs.length = xs.length := by simpa using h
      cases b with
      | true => simp [applyMask, ih h', List.count_cons]
      | false => simp [applyMask, ih h', List.count_cons]

/-- Masking a mapped list with a mapped mask is filtering. -/
lemma applyMask_map_map (xs : List γ) (b : γ → Bool) (v : γ → α) :
    applyMask (xs.map b) (xs.map v) = (xs.filter b).map v := by
  induction xs with
  | nil => simp [applyMask]
  | cons x xs ih =>
    cases hb : b x <;> simp [applyMask, hb, ih]

/-- The index positions a boolean row mask keeps. -/
def maskIdx (m : List Bool) : List Nat :=
  (List.range m.length).filter (fun i => m.getD i false)

lemma maskIdx_length (m : List Bool) : (maskIdx m).length = m.count true := by
  have hrep : (List.range m.length).map (fun i => m.getD i false) = m :=
    self_eq_range_map_getD m false
  have h1 : applyMask m (List.range m.length) = maskIdx m := by
    conv_lhs => rw [← hrep]
    have := applyMask_map_map (List.range m.length) (fun i => m.getD i false) id
    simpa [maskIdx] using this
  have h2 : (applyMask m (List.range m.length)).length = m.count true :=
    applyMask_length (by simp [hrep])
  rw [← h1, h2]

lemma wf_lengths {df : DF} (h : df.wf = true) :
    ∀ c ∈ df.cols, c.cells.length = df.nrows := by
  intro c hc
  have hconj := (List.all_eq_true.mp h) c hc
  rw [Bool.and_eq_true] at hconj
  exact beq_iff_eq.mp hconj.1

lemma wf_cellOk {df : DF} (h : df.wf = true) :
    ∀ c ∈ df.cols, ∀ x ∈ c.cells, cellOk c.dtype x = true := by
  intro c hc
  have hconj := (List.all_eq_true.mp h) c hc
  rw [Bool.and_eq_true] at hconj
  exact fun x hx => (List.all_eq_true.mp hconj.2) x hx

/-- Masking one column whose length matches the mask, written as an index
filter. -/
lemma applyMask_eq_idx {m : List Bool} {l : List Cell} (h : m.length = l.length) :
    applyMask m l = (maskIdx m).map (fun i => l.getD i none) := by
  have hrepm : (List.range m.length).map (fun i => m.getD i false) = m :=
    self_eq_range_map_getD m false
  have hrepl : (List.range m.length).map (fun i => l.getD i none) = l := by
    rw [h]; exact self_eq_range_map_getD l none
  conv_lhs => rw [← hrepm, ← hrepl]
  rw [applyMask_map_map]
  rfl

/-- The rows of a mask-restricted table are the selected rows of the
original, in index order. -/
lemma maskDF_rows {df : DF} {m : List Bool} (hw : df.wf = true)
    (hm : m.length = df.nrows) :
    (maskDF df m).rows = (maskIdx m).map df.rowAt := by
  have hlen : (maskDF df m).nrows = (maskIdx m).length := by
    simp [maskDF, maskIdx_length]
  unfold DF.rows
  rw [hlen]
  have hrow : ∀ i, (maskDF df m).rowAt i =
      df.cols.map (fun c => ((maskIdx m).map (fun k => c.cells.getD k none)).getD i none) := by
    intro i
    unfold DF.rowAt maskDF
    simp only [List.map_map]
    apply List.map_congr_left
    intro c hc
    have hc' : m.length = c.cells.length := by rw [hm, wf_lengths hw c hc]
    simp [applyMask_eq_idx hc']
  apply List.ext_getElem
  · simp
  · intro i h₁ h₂
    simp only [List.getElem_map, List.getElem_range]
    have hi : i < (maskIdx m).length := by simpa using h₁
    rw [hrow]
    unfold DF.rowAt
    apply List.map_congr_left
    intro c hc
    have : ((maskIdx m).map (fun k => c.cells.getD k none)).getD i none =
        c.cells.getD ((maskIdx m)[i]) none := by
      rw [List.getD_eq_getElem?_getD]
      rw [List.getElem?_map, List.getElem?_eq_getElem hi]
      simp
    rw [this]

lemma maskDF_nrows {df : DF} {m : List Bool} :
    (maskDF df m).nrows = m.count true := rfl

/-- Restriction by a length-matching mask preserves well-formedness. -/
lemma maskDF_wf {df : DF} {m : List Bool} (hw : df.wf = true)
    (hm : m.length = df.nrows) : (maskDF df m).wf = true := by
  apply List.all_eq_true.mpr
  intro c hc
  simp only [maskDF, List.mem_map] at hc
  obtain ⟨c0, hc0, rfl⟩ := hc
  apply Bool.and_eq_true_iff.mpr
  constructor
  · have hlen : m.length = c0.cells.length := by rw [hm, wf_lengths hw c0 hc0]
    simp [maskDF, applyMask_length hlen]
  · apply List.all_eq_true.mpr
    intro x hx
    exact wf_cellOk hw c0 hc0 x ((applyMask_sublist m c0.cells).mem hx)

/-! ### handle_garbage: row-level characterization -/

lemma getD_map_lt {l : List α} (f : α → β) {i : Nat} (h : i < l.length) (d : α) (d' : β) :
    (l.map f).getD i d' = f (l.getD i d) := by
  rw [List.getD_eq_getElem?_getD, List.getElem?_map, List.getElem?_eq_getElem h]
  simp [List.getD_eq_getElem?_getD, List.getElem?_eq_getElem h]

lemma rows_length (df : DF) : df.rows.length = df.nrows := by simp [DF.rows]

lemma rows_getD {df : DF} {i : Nat} (h : i < df.nrows) :
    df.rows.getD i [] = df.rowAt i := by
  unfold DF.rows
  rw [getD_map_lt df.rowAt (by simpa using h) 0]
  congr 1
  simp [List.getD, List.getElem?_range h]

lemma dupMarks_length (seen rs : List (List Cell)) :
    (dupMarks seen rs).length = rs.length := by
  induction rs generalizing seen with
  | nil => rfl
  | cons r rs ih => simp [dupMarks, ih]

/-- duplicated() marks position i exactly when the row also occurs
earlier (or in the starting seen set). -/
lemma dupMarks_getD (rs : List (List Cell)) (seen : List (List Cell)) (i : Nat)
    (h : i < rs.length) :
    (dupMarks seen rs).getD i false =
      decide (rs.getD i [] ∈ seen ∨ rs.getD i [] ∈ rs.take i) := by
  induction rs generalizing seen i with
  | nil => simp at h
  | cons r rs ih =>
    cases i with
    | zero => simp [dupMarks]
    | succ i =>
      have h' : i < rs.length := by simpa using h
      simp only [dupMarks, List.getD_cons_succ, List.take_succ_cons]
      rw [ih (r :: seen) i h']
      apply decide_eq_decide.mpr
      constructor
      · rintro (hin | hin)
        · rcases List.mem_cons.mp hin with h1 | h1
          · right; exact List.mem_cons.mpr (Or.inl h1)
          · left; exact h1
        · right; exact List.mem_cons.mpr (Or.inr hin)
      · rintro (hin | hin)
        · left; exact List.mem_cons.mpr (Or.inr hin)
        · rcases List.mem_cons.mp hin with h1 | h1
          · left; exact List.mem_cons.mpr (Or.inl h1)
          · right; exact h1

/-- Generic form of applyMask_eq_idx for any element type. -/
lemma applyMask_eq_idxD {m : List Bool} {l : List α} (h : m.length = l.length) (d : α) :
    applyMask m l = (maskIdx m).map (fun i => l.getD i d) := by
  have hrepm : (List.range m.length).map (fun i => m.getD i false) = m :=
    self_eq_range_map_getD m false
  have hrepl : (List.range m.length).map (fun i => l.getD i d) = l := by
    rw [h]; exact self_eq_range_map_getD l d
  conv_lhs => rw [← hrepm, ← hrepl]
  rw [applyMask_map_map]
  rfl

/-- Restricting by a mask acts as applyMask on the row list. -/
lemma maskDF_rows_applyMask {df : DF} {m : List Bool} (hw : df.wf = true)
    (hm : m.length = df.nrows) :
    (maskDF df m).rows = applyMask m df.rows := by
  rw [maskDF_rows hw hm, applyMask_eq_idxD (by rw [hm, rows_length]) ([] : List Cell)]
  apply List.map_congr_left
  intro i hi
  have hilt : i < df.nrows := by
    have := List.of_mem_filter hi
    have hr : i ∈ List.range m.length := List.mem_of_mem_filter hi
    rw [List.mem_range] at hr
    omega
  exact (rows_getD hilt).symm

/-- The index positions handle_garbage keeps: first occurrences that are
not fully missing. -/
def garbageKeep (df : DF) : List Nat :=
  (List.range df.nrows).filter
    (fun i => !decide (df.rowAt i ∈ df.rows.take i) && !allMissingRow (df.rowAt i))

/-- The rows surviving handle_garbage are exactly the first occurrences
of non-fully-missing rows, in their original order and unchanged. -/
lemma garbageDF_rows {df : DF} (hw : df.wf = true) :
    (garbageDF df).rows = (garbageKeep df).map df.rowAt := by
  have hm1len : ((dupMarks [] df.rows).map (fun b => !b)).length = df.nrows := by
    simp [dupMarks_length, rows_length]
  have hd1rows : (maskDF df ((dupMarks [] df.rows).map (fun b => !b))).rows =
      ((List.range df.nrows).filter
        (fun i => !decide (df.rowAt i ∈ df.rows.take i))).map df.rowAt := by
    rw [maskDF_rows hw hm1len]
    have hidx : maskIdx ((dupMarks [] df.rows).map (fun b => !b)) =
        (List.range df.nrows).filter (fun i => !decide (df.rowAt i ∈ df.rows.take i)) := by
      unfold maskIdx
      rw [hm1len]
      apply List.filter_congr
      intro i hi
      rw [List.mem_range] at hi
      have hlt : i < (dupMarks [] df.rows).length := by
        rw [dupMarks_length, rows_length]; exact hi
      rw [getD_map_lt (fun b => !b) hlt false]
      rw [dupMarks_getD df.rows [] i (by rw [rows_length]; exact hi)]
      rw [rows_getD hi]
      simp
    rw [hidx]
  have hd1wf : (maskDF df ((dupMarks [] df.rows).map (fun b => !b))).wf = true :=
    maskDF_wf hw hm1len
  unfold garbageDF
  set d1 := maskDF df ((dupMarks [] df.rows).map (fun b => !b)) with hd1
  set K1 := (List.range df.nrows).filter
    (fun i => !decide (df.rowAt i ∈ df.rows.take i)) with hK1
  have hm2len : (d1.rows.map (fun r => !allMissingRow r)).length = d1.nrows := by
    simp [rows_length]
  rw [maskDF_rows_applyMask hd1wf hm2len]
  rw [hd1rows]
  rw [List.map_map]
  simp only [Function.comp_def]
  have := applyMask_map_map K1 (fun i => !allMissingRow (df.rowAt i)) df.rowAt
  rw [this]
  unfold garbageKeep
  rw [hK1, List.filter_filter]
  congr 1
  apply List.filter_congr
  intro i _
  exact Bool.and_comm _ _

lemma garbage_nrows_rows (df : DF) : (garbageDF df).nrows = (garbageDF df).rows.length :=
  (rows_length _).symm

lemma getElem_rows {df : DF} {i : Nat} (h : i < df.rows.length) :
    df.rows[i] = df.rowAt i := by
  unfold DF.rows
  simp

/-- Distinct kept first-occurrence positions carry distinct rows. -/
lemma garbageKeep_pairwise (df : DF) :
    (garbageKeep df).Pairwise (fun a b => df.rowAt a ≠ df.rowAt b) := by
  have hsub : List.Sublist (garbageKeep df) (List.range df.nrows) :=
    List.filter_sublist _
  have hlt : (garbageKeep df).Pairwise (· < ·) :=
    (List.pairwise_lt_range df.nrows).sublist hsub
  apply hlt.imp_of_mem
  intro a b ha hb hab
  have hbn : b < df.nrows := List.mem_range.mp (List.mem_of_mem_filter hb)
  have hbp := List.of_mem_filter hb
  rw [Bool.and_eq_true] at hbp
  have hbfirst : df.rowAt b ∉ df.rows.take b := by
    have := hbp.1
    simpa using this
  intro heq
  apply hbfirst
  have han : a < df.rows.length := by rw [rows_length]; omega
  have hatake : a < (df.rows.take b).length := by
    rw [List.length_take, rows_length]
    omega
  have : (df.rows.take b)[a] = df.rowAt a := by
    rw [List.getElem_take]
    exact getElem_rows han
  rw [← heq, ← this]
  exact List.getElem_mem hatake

/-- Claim C5, amended to stores with at least one column (a column-free
store counts as empty, so the stage skips it and duplicate index entries
survive): after handle_garbage no two rows are value-identical, no row is
fully missing, the surviving rows are exactly the first occurrences of
the non-fully-missing rows, unchanged and in order, and the row count
does not grow. -/
theorem C5_handle_garbage (p : Pipeline) (hw : p.df.wf = true) (hc : p.df.cols ≠ []) :
    (handle_garbage p).df.rows.Pairwise (fun r s => r ≠ s) ∧
    (∀ r ∈ (handle_garbage p).df.rows, allMissingRow r = false) ∧
    (handle_garbage p).df.rows = (garbageKeep p.df).map p.df.rowAt ∧
    (∀ i < p.df.nrows, p.df.rowAt i ∉ p.df.rows.take i →
      allMissingRow (p.df.rowAt i) = false →
      p.df.rowAt i ∈ (handle_garbage p).df.rows) ∧
    List.Sublist (handle_garbage p).df.rows p.df.rows ∧
    (handle_garbage p).df.nrows ≤ p.df.nrows := by
  have hrows : (handle_garbage p).df.rows = (garbageKeep p.df).map p.df.rowAt := by
    unfold handle_garbage
    by_cases he : p.df.isEmpty
    · have hcb : p.df.cols.isEmpty = false := by
        cases hcl : p.df.cols with
        | nil => exact absurd hcl hc
        | cons a l => simp
      have hz : p.df.nrows = 0 := by
        unfold DF.isEmpty at he
        rw [hcb] at he
        simpa using he
      simp only [he, if_true]
      unfold DF.rows garbageKeep
      rw [hz]
      simp
    · simp only [he, if_false]
      exact garbageDF_rows hw
  refine ⟨?_, ?_, hrows, ?_, ?_, ?_⟩
  · rw [hrows, List.pairwise_map]
    exact garbageKeep_pairwise p.df
  · intro r hr
    rw [hrows] at hr
    obtain ⟨i, hi, rfl⟩ := List.mem_map.mp hr
    have := List.of_mem_filter hi
    rw [Bool.and_eq_true] at this
    simpa using this.2
  · intro i hi h1 h2
    rw [hrows]
    apply List.mem_map.mpr
    refine ⟨i, ?_, rfl⟩
    apply List.mem_filter.mpr
    refine ⟨List.mem_range.mpr hi, ?_⟩
    rw [Bool.and_eq_true]
    constructor
    · simpa using h1
    · simpa using h2
  · rw [hrows]
    have : p.df.rows = (List.range p.df.nrows).map p.df.rowAt := rfl
    rw [this]
    exact List.Sublist.map p.df.rowAt (List.filter_sublist _)
  · have h1 : (handle_garbage p).df.nrows = (handle_garbage p).df.rows.length :=
      (rows_length _).symm
    have h2 : List.Sublist (handle_garbage p).df.rows p.df.rows := by
      rw [hrows]
      have : p.df.rows = (List.range p.df.nrows).map p.df.rowAt := rfl
      rw [this]
      exact List.Sublist.map p.df.rowAt (List.filter_sublist _)
    rw [h1, ← rows_length p.df]
    exact h2.length_le

/-- A store with rows but no columns, as pandas builds from a bare index. -/
def dfNoCols : DF := ⟨2, []⟩

/-- Claim C5, counterexample to the claim as stated: on a store with two
rows and no columns, handle_garbage leaves two value-identical, fully
missing rows in place (the store is empty in the pandas sense, so the
stage skips it). -/
theorem C5_counterexample :
    (handle_garbage (initPipeline dfNoCols)).df.nrows = 2 ∧
    (handle_garbage (initPipeline dfNoCols)).df.rows = [[], []] ∧
    (handle_garbage (initPipeline dfNoCols)).df.rowAt 0 =
      (handle_garbage (initPipeline dfNoCols)).df.rowAt 1 ∧
    allMissingRow ((handle_garbage (initPipeline dfNoCols)).df.rowAt 0) = true := by
  with_unfolding_all decide

/-- A concrete well-formed store for exercising handle_garbage: one
duplicate row and one fully missing row. -/
def dfG : DF :=
  ⟨4,
    [⟨"a", DType.numeric, [some (Val.num 1), some (Val.num 1), none, none]⟩,
     ⟨"b", DType.text,
       [some (Val.str "x"), some (Val.str "x"), none, some (Val.str "y")]⟩]⟩

theorem C5_witness :
    dfG.wf = true ∧ dfG.cols ≠ [] ∧
    (handle_garbage (initPipeline dfG)).df.rows =
      (garbageKeep dfG).map dfG.rowAt ∧
    (handle_garbage (initPipeline dfG)).df.nrows ≤ dfG.nrows :=
  ⟨by with_unfolding_all decide, by with_unfolding_all decide,
    (C5_handle_garbage (initPipeline dfG) (by with_unfolding_all decide)
      (by with_unfolding_all decide)).2.2.1,
    (C5_handle_garbage (initPipeline dfG) (by with_unfolding_all decide)
      (by with_unfolding_all decide)).2.2.2.2.2⟩

/-! ### Stage plumbing: empty guard, report, method validation -/

/-- The pipeline state a stage call leaves behind, whether it returned or
raised. -/
def stageState : Except (String × Pipeline) Pipeline → Pipeline
  | Except.ok q => q
  | Except.error e => e.2

/-- Did the stage call raise? -/
def isError : Except (String × Pipeline) Pipeline → Bool
  | Except.ok _ => false
  | Except.error _ => true

/-- Claim C7: every stage is a no-op on a store with zero rows — the
store and the report are returned unchanged and handle_outliers does not
raise (for any method, hence for the valid ones); the full stage
sequence on an empty table leaves the store and report at their initial
state. -/
theorem C7_empty_noop (p : Pipeline) (t : ℚ) (m : String) (h : p.df.nrows = 0) :
    (standardize p).df = p.df ∧ (standardize p).report = p.report ∧
    handle_garbage p = p ∧
    impute_missing p = p ∧
    optimize p = p ∧
    handle_outliers t m p = Except.ok p ∧
    (optimize (stageState (handle_outliers t m
      (impute_missing (handle_garbage (standardize p)))))).df = p.df ∧
    (optimize (stageState (handle_outliers t m
      (impute_missing (handle_garbage (standardize p)))))).report = p.report := by
  have he : p.df.isEmpty = true := by simp [DF.isEmpty, h]
  have hs : standardize p = { p with log := p.log ++ [LogEvent.standardizeSkippedEmpty] } := by
    simp [standardize, he]
  have hse : (standardize p).df.isEmpty = true := by rw [hs]; exact he
  have hg : handle_garbage (standardize p) = standardize p := by
    simp [handle_garbage, hse]
  have hie : (impute_missing (handle_garbage (standardize p))) = standardize p := by
    rw [hg]
    simp [impute_missing, hse]
  have ho : handle_outliers t m (impute_missing (handle_garbage (standardize p))) =
      Except.ok (standardize p) := by
    rw [hie]
    simp [handle_outliers, hse]
  refine ⟨by rw [hs], by rw [hs], by simp [handle_garbage, he],
    by simp [impute_missing, he], by simp [optimize, he],
    by simp [handle_outliers, he], ?_, ?_⟩
  · rw [ho]
    show (optimize (standardize p)).df = p.df
    simp [optimize, hse]
    rw [hs]
  · rw [ho]
    show (optimize (standardize p)).report = p.report
    simp [optimize, hse]
    rw [hs]

/-- An empty ingestion result: the empty DataFrame. -/
def dfEmpty : DF := ⟨0, []⟩

theorem C7_witness :
    (standardize (initPipeline dfEmpty)).df = dfEmpty ∧
    handle_garbage (initPipeline dfEmpty) = initPipeline dfEmpty ∧
    handle_outliers (3/2) "cap" (initPipeline dfEmpty) =
      Except.ok (initPipeline dfEmpty) ∧
    (optimize (stageState (handle_outliers (3/2) "cap"
      (impute_missing (handle_garbage (standardize (initPipeline dfEmpty))))))).df =
        dfEmpty ∧
    (optimize (stageState (handle_outliers (3/2) "cap"
      (impute_missing (handle_garbage (standardize (initPipeline dfEmpty))))))).report =
        (initPipeline dfEmpty).report := by
  have h := C7_empty_noop (initPipeline dfEmpty) (3/2) "cap" (by with_unfolding_all decide)
  exact ⟨h.1, h.2.2.1, h.2.2.2.2.2.1, h.2.2.2.2.2.2.1, h.2.2.2.2.2.2.2⟩

/-- Claim C8, amended: no stage ever writes to the run report — it keeps
exactly the initial shape recorded at construction; the per-stage counts
are emitted to the logging collaborator instead. -/
theorem C8_report_untouched (p : Pipeline) (t : ℚ) (m : String) (df : DF) :
    (standardize p).report = p.report ∧
    (handle_garbage p).report = p.report ∧
    (impute_missing p).report = p.report ∧
    (stageState (handle_outliers t m p)).report = p.report ∧
    (optimize p).report = p.report ∧
    (initPipeline df).report = [("initial_shape", df.nrows, df.ncols)] ∧
    (¬ p.df.isEmpty → (handle_garbage p).log = p.log ++
      [if 0 < p.df.nrows - (garbageDF p.df).nrows
       then LogEvent.garbageRemoved (p.df.nrows - (garbageDF p.df).nrows)
       else LogEvent.garbageClean]) := by
  refine ⟨?_, ?_, ?_, ?_, ?_, rfl, ?_⟩
  · unfold standardize
    by_cases he : p.df.isEmpty <;> simp [he]
  · unfold handle_garbage
    by_cases he : p.df.isEmpty <;> simp [he]
  · unfold impute_missing
    by_cases he : p.df.isEmpty <;> simp [he]
  · unfold handle_outliers stageState
    by_cases he : p.df.isEmpty
    · simp [he]
    · by_cases hr : m = "remove"
      · subst hr; simp [he]
      · by_cases hcp : m = "cap"
        · subst hcp; simp [he]
        · simp [he, hr, hcp]
  · unfold optimize
    by_cases he : p.df.isEmpty <;> simp [he]
  · intro he
    unfold handle_garbage
    simp [he]

/-- Claim C8, counterexample to the claim as stated: handle_garbage
removes two rows of this store, yet the run report after the stage is
exactly the pre-call report, holding nothing but the initial shape — the
removed-row count went to the logger, not the report. -/
theorem C8_counterexample :
    (handle_garbage (initPipeline dfG)).df.nrows = 2 ∧
    dfG.nrows = 4 ∧
    (handle_garbage (initPipeline dfG)).report = (initPipeline dfG).report ∧
    (handle_garbage (initPipeline dfG)).report = [("initial_shape", 4, 2)] := by
  with_unfolding_all decide

/-- Claim C3, amended: handle_outliers raises exactly when the store is
nonempty and the method is neither cap nor remove (on an empty store the
emptiness guard returns before the method is examined), and when it
raises, the store and the report are exactly their pre-call values. -/
theorem C3_method_validation (t : ℚ) (m : String) (p : Pipeline) :
    isError (handle_outliers t m p) =
      (!p.df.isEmpty && !(m == "cap") && !(m == "remove")) ∧
    (isError (handle_outliers t m p) = true →
      (stageState (handle_outliers t m p)).df = p.df ∧
      (stageState (handle_outliers t m p)).report = p.report) := by
  constructor
  · unfold handle_outliers
    by_cases he : p.df.isEmpty
    · simp [isError, he]
    · by_cases hr : m = "remove"
      · subst hr; simp [isError, he]
      · by_cases hcp : m = "cap"
        · subst hcp; simp [isError, he]
        · simp [isError, he, hr, hcp]
  · intro herr
    unfold handle_outliers at herr ⊢
    by_cases he : p.df.isEmpty
    · simp [isError, he] at herr
    · by_cases hr : m = "remove"
      · subst hr; simp [isError, he] at herr
      · by_cases hcp : m = "cap"
        · subst hcp; simp [isError, he] at herr
        · simp [stageState, he, hr, hcp]

/-- Claim C3, counterexample to the claim as stated: with an empty store
and the unrecognized method bogus, handle_outliers returns normally
instead of raising — the raises-iff-invalid-method equivalence fails on
empty stores. -/
theorem C3_counterexample :
    isError (handle_outliers (3/2) "bogus" (initPipeline dfEmpty)) = false ∧
    stageState (handle_outliers (3/2) "bogus" (initPipeline dfEmpty)) =
      initPipeline dfEmpty ∧
    "bogus" ≠ "cap" ∧ "bogus" ≠ "remove" := by
  with_unfolding_all decide

theorem C3_witness :
    isError (handle_outliers (3/2) "bogus" (initPipeline dfG)) = true ∧
    (stageState (handle_outliers (3/2) "bogus" (initPipeline dfG))).df =
      (initPipeline dfG).df ∧
    (stageState (handle_outliers (3/2) "bogus" (initPipeline dfG))).report =
      (initPipeline dfG).report := by
  have h := (C3_method_validation (3/2) "bogus" (initPipeline dfG)).2
    (by with_unfolding_all decide)
  exact ⟨by with_unfolding_all decide, h.1, h.2⟩

/-! ### handle_outliers: per-column characterization -/

lemma mem_numIdx {df : DF} {j : Nat} :
    j ∈ numIdx df ↔ j < df.cols.length ∧ (df.colAt j).dtype = DType.numeric := by
  unfold numIdx DF.colAt
  rw [List.mem_filter, List.mem_range]
  simp [beq_iff_eq]

lemma numIdx_nodup (df : DF) : (numIdx df).Nodup :=
  (List.nodup_range _).filter _

lemma numIdx_lt {df : DF} {j : Nat} (h : j ∈ numIdx df) : j < df.cols.length :=
  (mem_numIdx.mp h).1

/-- Reading one column of the capped table. -/
lemma capDF_colAt (t : ℚ) (df : DF) (j : Nat) :
    (capDF t df).colAt j =
      if j ∈ numIdx df ∧ j < df.cols.length then capColF t (df.colAt j)
      else df.colAt j := by
  unfold capDF DF.colAt
  exact getD_updCols (capColF t) (numIdx df) (numIdx_nodup df) df.cols j

lemma capDF_nrows (t : ℚ) (df : DF) : (capDF t df).nrows = df.nrows := rfl

lemma capCells_length (t : ℚ) (cells : List Cell) :
    (capCells t cells).length = cells.length := by
  by_cases h : colIQR cells = 0
  · simp [capCells, h]
  · by_cases h2 : colHasOut (lbOf t cells) (ubOf t cells) cells <;>
      simp [capCells, h, h2]

/-- When the getD read of a list returns a non-default value the index is
in range. -/
lemma lt_length_of_getD_some {l : List Cell} {i : Nat} {v : Val}
    (h : l.getD i none = some v) : i < l.length := by
  by_contra hn
  rw [List.getD_eq_getElem?_getD, List.getElem?_eq_none (Nat.le_of_not_lt hn)] at h
  simp at h

lemma in_bounds_of_not_hasOut {lb ub : ℚ} {cells : List Cell}
    (h : colHasOut lb ub cells = false) :
    ∀ c ∈ cells, ∀ x, cellNum c = some x → lb ≤ x ∧ x ≤ ub := by
  intro c hc x hx
  unfold colHasOut at h
  rw [List.any_eq_false] at h
  have := h c hc
  rw [hx] at this
  simp at this
  exact this

/-- The combined effect of the two sequential np.where clips on a numeric
cell, when the bounds are in the right order: values below go to the
lower bound, values above to the upper bound, values inside stay. -/
lemma capCells_getD_num {t : ℚ} {cells : List Cell} (ht : 0 ≤ t)
    (hiqr : 0 < colIQR cells) {i : Nat} {x : ℚ}
    (hx : cells.getD i none = some (Val.num x)) :
    (capCells t cells).getD i none =
      some (Val.num
        (if x < lbOf t cells then lbOf t cells
         else if ubOf t cells < x then ubOf t cells else x)) := by
  have hlbub : lbOf t cells ≤ ubOf t cells := by
    unfold lbOf ubOf
    have h1 : 0 ≤ t * colIQR cells := mul_nonneg ht (le_of_lt hiqr)
    have h2 : colQ1 cells ≤ colQ3 cells := by
      have : colIQR cells = colQ3 cells - colQ1 cells := rfl
      linarith [hiqr]
    linarith
  have hi : i < cells.length := lt_length_of_getD_some hx
  unfold capCells
  rw [if_neg (ne_of_gt hiqr)]
  by_cases hout : colHasOut (lbOf t cells) (ubOf t cells) cells
  · simp only [hout, if_true]
    have hmem : i < (cells.map (clipLow (lbOf t cells))).length := by simpa using hi
    rw [getD_map_lt _ hmem none, getD_map_lt _ hi none, hx]
    by_cases h1 : x < lbOf t cells
    · rw [if_pos h1]
      simp only [clipLow, clipHigh, if_pos h1]
      rw [if_neg (not_lt.mpr hlbub)]
    · rw [if_neg h1]
      simp only [clipLow, clipHigh, if_neg h1]
  · have hf : colHasOut (lbOf t cells) (ubOf t cells) cells = false := by
      simpa using hout
    simp only [hf, Bool.false_eq_true, if_false]
    have hgd : cells.getD i none = cells[i] := by
      rw [List.getD_eq_getElem?_getD, List.getElem?_eq_getElem hi]; rfl
    have hcmem : (some (Val.num x) : Cell) ∈ cells := by
      rw [← hx, hgd]; exact List.getElem_mem hi
    have hin := in_bounds_of_not_hasOut hf (some (Val.num x)) hcmem x rfl
    rw [hx, if_neg (not_lt.mpr hin.1), if_neg (not_lt.mpr hin.2)]

/-- Cells that hold no number (missing markers in particular) pass through
both clips unchanged. -/
lemma clip_preserves_nonnum {lb ub : ℚ} {c : Cell} (h : cellNum c = none) :
    clipHigh ub (clipLow lb c) = c := by
  match c with
  | none => rfl
  | some (Val.str s) => rfl
  | some (Val.num x) => simp [cellNum] at h

lemma capCells_getD_nonnum (t : ℚ) (cells : List Cell) (i : Nat)
    (h : cellNum (cells.getD i none) = none) :
    (capCells t cells).getD i none = cells.getD i none := by
  by_cases hi : i < cells.length
  · by_cases hiq : colIQR cells = 0
    · simp [capCells, hiq]
    · by_cases hout : colHasOut (lbOf t cells) (ubOf t cells) cells
      · unfold capCells
        rw [if_neg hiq]
        simp only [hout, if_true]
        have hmem : i < (cells.map (clipLow (lbOf t cells))).length := by simpa using hi
        rw [getD_map_lt _ hmem none, getD_map_lt _ hi none]
        exact clip_preserves_nonnum h
      · simp [capCells, hiq, hout]
  · have h1 : cells.getD i none = none := by
      rw [List.getD_eq_getElem?_getD, List.getElem?_eq_none (Nat.le_of_not_lt hi)]
      rfl
    have h2 : (capCells t cells).getD i none = none := by
      rw [List.getD_eq_getElem?_getD, List.getElem?_eq_none]
      · rfl
      · rw [capCells_length]; exact Nat.le_of_not_lt hi
    rw [h1, h2]

/-- For a nonnegative threshold and positive spread the bounds are in
order. -/
lemma lbOf_le_ubOf {t : ℚ} {cells : List Cell} (ht : 0 ≤ t)
    (hiqr : 0 < colIQR cells) : lbOf t cells ≤ ubOf t cells := by
  unfold lbOf ubOf
  have h1 : 0 ≤ t * colIQR cells := mul_nonneg ht (le_of_lt hiqr)
  have h2 : colQ1 cells ≤ colQ3 cells := by
    have : colIQR cells = colQ3 cells - colQ1 cells := rfl
    linarith [hiqr]
  linarith

/-- After the cap branch no present value lies outside the bounds
computed on the pre-stage column (for a nonnegative threshold and
positive spread). -/
lemma capCells_present_bounded {t : ℚ} {cells : List Cell} (ht : 0 ≤ t)
    (hiqr : 0 < colIQR cells) :
    ∀ x ∈ presentNums (capCells t cells),
      lbOf t cells ≤ x ∧ x ≤ ubOf t cells := by
  have hlbub : lbOf t cells ≤ ubOf t cells := lbOf_le_ubOf ht hiqr
  intro x hx
  obtain ⟨c, hc, hcn⟩ := List.mem_filterMap.mp hx
  unfold capCells at hc
  rw [if_neg (ne_of_gt hiqr)] at hc
  by_cases hout : colHasOut (lbOf t cells) (ubOf t cells) cells
  · simp only [hout, if_true] at hc
    obtain ⟨c1, hc1, rfl⟩ := List.mem_map.mp hc
    obtain ⟨c0, hc0, rfl⟩ := List.mem_map.mp hc1
    match c0 with
    | none => simp [clipLow, clipHigh, cellNum] at hcn
    | some (Val.str s) => simp [clipLow, clipHigh, cellNum] at hcn
    | some (Val.num x0) =>
      simp only [clipLow, clipHigh] at hcn
      by_cases h1 : x0 < lbOf t cells
      · rw [if_pos h1] at hcn
        rw [if_neg (not_lt.mpr hlbub)] at hcn
        simp only [cellNum] at hcn
        rw [Option.some_inj] at hcn
        subst hcn
        exact ⟨le_refl _, hlbub⟩
      · rw [if_neg h1] at hcn
        by_cases h2 : ubOf t cells < x0
        · rw [if_pos h2] at hcn
          simp only [cellNum] at hcn
          rw [Option.some_inj] at hcn
          subst hcn
          exact ⟨hlbub, le_refl _⟩
        · rw [if_neg h2] at hcn
          simp only [cellNum] at hcn
          rw [Option.some_inj] at hcn
          subst hcn
          exact ⟨not_lt.mp h1, not_lt.mp h2⟩
  · simp only [hout, Bool.false_eq_true, if_false] at hc
    have hf : colHasOut (lbOf t cells) (ubOf t cells) cells = false := by
      simpa using hout
    exact in_bounds_of_not_hasOut hf c hc x hcn

/-- Run the cap variant of the outlier stage and keep the resulting
state (this variant never raises). -/
def runCap (t : ℚ) (p : Pipeline) : Pipeline := stageState (handle_outliers t "cap" p)

/-- Run the remove variant of the outlier stage and keep the resulting
state (this variant never raises). -/
def runRemove (t : ℚ) (p : Pipeline) : Pipeline :=
  stageState (handle_outliers t "remove" p)

lemma runCap_nonempty {t : ℚ} {p : Pipeline} (he : p.df.isEmpty = false) :
    (runCap t p).df = capDF t p.df := by
  unfold runCap handle_outliers
  simp [he, stageState]

lemma runCap_empty {t : ℚ} {p : Pipeline} (he : p.df.isEmpty = true) :
    (runCap t p).df = p.df := by
  unfold runCap handle_outliers
  simp [he, stageState]

/-- On an empty pandas frame, a well-formed column either does not exist
or has no cells. -/
lemma empty_col_cells {df : DF} (hw : df.wf = true) (he : df.isEmpty = true)
    {j : Nat} (hj : j < df.ncols) : (df.colAt j).cells = [] := by
  unfold DF.isEmpty at he
  rw [Bool.or_eq_true] at he
  have hmem : df.colAt j ∈ df.cols := by
    unfold DF.colAt
    rw [List.getD_eq_getElem?_getD, List.getElem?_eq_getElem hj]
    exact List.getElem_mem hj
  rcases he with hz | hcs
  · have hz' : df.nrows = 0 := by simpa using hz
    have := wf_lengths hw _ hmem
    rw [hz'] at this
    exact List.length_eq_zero.mp this
  · exfalso
    have : df.cols = [] := List.isEmpty_iff.mp hcs
    unfold DF.ncols at hj
    rw [this] at hj
    simp at hj

/-- Claim C1: the cap method never raises, never changes the row count,
leaves non-numeric and zero-IQR columns alone, and on every numeric
column with positive IQR (bounds from the pre-stage values, threshold
nonnegative as the spec requires): missing cells stay missing,
below-lower values become the lower bound, above-upper values become the
upper bound, in-range values are untouched, and no present value ends up
outside the bounds. -/
theorem C1_cap_outliers (p : Pipeline) (t : ℚ) (hw : p.df.wf = true) (ht : 0 ≤ t) :
    isError (handle_outliers t "cap" p) = false ∧
    (runCap t p).df.nrows = p.df.nrows ∧
    (∀ j, j < p.df.ncols →
      ((p.df.colAt j).dtype ≠ DType.numeric →
        (runCap t p).df.colAt j = p.df.colAt j) ∧
      ((p.df.colAt j).dtype = DType.numeric →
        (colIQR (p.df.colAt j).cells = 0 →
          (runCap t p).df.colAt j = p.df.colAt j) ∧
        (0 < colIQR (p.df.colAt j).cells →
          (∀ i, p.df.cellAt j i = none → (runCap t p).df.cellAt j i = none) ∧
          (∀ i x, p.df.cellAt j i = some (Val.num x) →
            (x < lbOf t (p.df.colAt j).cells →
              (runCap t p).df.cellAt j i =
                some (Val.num (lbOf t (p.df.colAt j).cells))) ∧
            (ubOf t (p.df.colAt j).cells < x →
              (runCap t p).df.cellAt j i =
                some (Val.num (ubOf t (p.df.colAt j).cells))) ∧
            (lbOf t (p.df.colAt j).cells ≤ x → x ≤ ubOf t (p.df.colAt j).cells →
              (runCap t p).df.cellAt j i = p.df.cellAt j i)) ∧
          (∀ x ∈ presentNums ((runCap t p).df.colAt j).cells,
            lbOf t (p.df.colAt j).cells ≤ x ∧
              x ≤ ubOf t (p.df.colAt j).cells)))) := by
  have herr : isError (handle_outliers t "cap" p) = false := by
    unfold handle_outliers
    by_cases he : p.df.isEmpty <;> simp [he, isError]
  refine ⟨herr, ?_, ?_⟩
  · by_cases he : p.df.isEmpty
    · rw [runCap_empty he]
    · rw [runCap_nonempty (by simpa using he)]
      rfl
  · intro j hj
    by_cases he : p.df.isEmpty
    · have hcells : (p.df.colAt j).cells = [] := empty_col_cells hw he hj
      have hiqr0 : colIQR (p.df.colAt j).cells = 0 := by
        rw [hcells]
        unfold colIQR colQ1 colQ3 sortedNums presentNums quantileSorted
        simp
      have hdfeq : (runCap t p).df = p.df := runCap_empty he
      refine ⟨fun _ => by rw [hdfeq], fun _ => ⟨fun _ => by rw [hdfeq], fun hpos => ?_⟩⟩
      · rw [hiqr0] at hpos
        exact absurd hpos (lt_irrefl 0)
    · have he' : p.df.isEmpty = false := by simpa using he
      have hdfeq : (runCap t p).df = capDF t p.df := runCap_nonempty he'
      have hcol : (runCap t p).df.colAt j =
          if j ∈ numIdx p.df ∧ j < p.df.cols.length then capColF t (p.df.colAt j)
          else p.df.colAt j := by rw [hdfeq]; exact capDF_colAt t p.df j
      constructor
      · intro hnn
        rw [hcol, if_neg]
        intro hcon
        exact hnn (mem_numIdx.mp hcon.1).2
      · intro hnum
        have hmemnum : j ∈ numIdx p.df := mem_numIdx.mpr ⟨hj, hnum⟩
        have hcol' : (runCap t p).df.colAt j = capColF t (p.df.colAt j) := by
          rw [hcol, if_pos ⟨hmemnum, hj⟩]
        constructor
        · intro hiqr0
          rw [hcol']
          unfold capColF capCells
          rw [if_pos hiqr0]
        · intro hpos
          have hcellAt : ∀ i, (runCap t p).df.cellAt j i =
              (capCells t (p.df.colAt j).cells).getD i none := by
            intro i
            unfold DF.cellAt
            rw [hcol']
            rfl
          refine ⟨?_, ?_, ?_⟩
          · intro i hnone
            rw [hcellAt i]
            unfold DF.cellAt at hnone
            have hcn : cellNum ((p.df.colAt j).cells.getD i none) = none := by
              rw [hnone]; rfl
            rw [capCells_getD_nonnum t _ i hcn]
            exact hnone
          · intro i x hx
            unfold DF.cellAt at hx
            have hclip := capCells_getD_num ht hpos hx
            have hlbub := lbOf_le_ubOf ht hpos
            refine ⟨?_, ?_, ?_⟩
            · intro hlow
              rw [hcellAt i, hclip, if_pos hlow]
            · intro hhigh
              have hnl : ¬ x < lbOf t (p.df.colAt j).cells :=
                not_lt.mpr (le_trans hlbub (le_of_lt hhigh))
              rw [hcellAt i, hclip, if_neg hnl, if_pos hhigh]
            · intro h1 h2
              rw [hcellAt i, hclip, if_neg (not_lt.mpr h1), if_neg (not_lt.mpr h2)]
              unfold DF.cellAt
              rw [hx]
          · intro x hx
            rw [hcol'] at hx
            exact capCells_present_bounded ht hpos x hx

/-- The scenario store of the spec: a text column and an age column with
one extreme value. -/
def dfC1 : DF :=
  ⟨4,
    [⟨"nombre", DType.text,
      [some (Val.str "Juan"), some (Val.str "Ana"), some (Val.str "Pedro"),
        some (Val.str "Luis")]⟩,
     ⟨"edad", DType.numeric,
      [some (Val.num 25), some (Val.num 30), some (Val.num 25),
        some (Val.num 120)]⟩]⟩

theorem C1_witness :
    dfC1.wf = true ∧ (0 : ℚ) ≤ 3/2 ∧
    (runCap (3/2) (initPipeline dfC1)).df.nrows = dfC1.nrows ∧
    (runCap (3/2) (initPipeline dfC1)).df.cellAt 1 3 =
      some (Val.num (ubOf (3/2) (dfC1.colAt 1).cells)) := by
  have h := C1_cap_outliers (initPipeline dfC1) (3/2) (by with_unfolding_all decide)
    (by with_unfolding_all decide)
  refine ⟨by with_unfolding_all decide, by with_unfolding_all decide, h.2.1, ?_⟩
  have h3 := (h.2.2 1 (by with_unfolding_all decide)).2 rfl
  exact ((h3.2 (by with_unfolding_all decide)).2.1 3 120
    (by with_unfolding_all decide)).2.1 (by with_unfolding_all decide)

/-! ### handle_outliers, remove branch: the combined row mask -/

/-- Row survival in the remove branch: every numeric column either has
zero IQR or holds an in-bounds or missing value at this row. -/
def rowSurvives (t : ℚ) (df : DF) (i : Nat) : Bool :=
  (numIdx df).all (fun j =>
    (colIQR (df.colAt j).cells == 0) ||
      survCell t (df.colAt j).cells (df.cellAt j i))

lemma colMask_length (t : ℚ) (cells : List Cell) :
    (colMask t cells).length = cells.length := by simp [colMask]

lemma getD_andMask {a b : List Bool} {i : Nat} (ha : i < a.length)
    (hb : i < b.length) :
    (andMask a b).getD i false = (a.getD i false && b.getD i false) := by
  have hz : i < (andMask a b).length := by
    unfold andMask
    rw [List.length_zipWith]
    omega
  unfold andMask
  rw [List.getD_eq_getElem?_getD, List.getElem?_eq_getElem (by simpa [andMask] using hz)]
  rw [List.getElem_zipWith]
  rw [List.getD_eq_getElem?_getD, List.getElem?_eq_getElem ha]
  rw [List.getD_eq_getElem?_getD, List.getElem?_eq_getElem hb]
  rfl

lemma removeFold_char (t : ℚ) (df : DF) (hw : df.wf = true) (js : List Nat)
    (hjs : ∀ j ∈ js, j < df.cols.length) (m0 : List Bool)
    (hm0 : m0.length = df.nrows) :
    (js.foldl (removeStep t df) m0).length = df.nrows ∧
    ∀ i, i < df.nrows → (js.foldl (removeStep t df) m0).getD i false =
      (m0.getD i false && js.all (fun j =>
        (colIQR (df.colAt j).cells == 0) ||
          survCell t (df.colAt j).cells (df.cellAt j i))) := by
  induction js generalizing m0 with
  | nil => exact ⟨hm0, by simp⟩
  | cons j js ih =>
    have hjlt : j < df.cols.length := hjs j (List.mem_cons_self j js)
    have hjs' : ∀ k ∈ js, k < df.cols.length := fun k hk => hjs k (List.mem_cons_of_mem j hk)
    have hcmem : df.colAt j ∈ df.cols := by
      unfold DF.colAt
      rw [List.getD_eq_getElem?_getD, List.getElem?_eq_getElem hjlt]
      exact List.getElem_mem hjlt
    have hclen : (df.colAt j).cells.length = df.nrows := wf_lengths hw _ hcmem
    have hstep : ∀ m : List Bool, m.length = df.nrows →
        (removeStep t df m j).length = df.nrows := by
      intro m hm
      unfold removeStep
      split
      · exact hm
      · unfold andMask
        rw [List.length_zipWith, colMask_length]
        show min m.length (df.colAt j).cells.length = df.nrows
        rw [hm, hclen]
        exact Nat.min_self _
    have hm1 : (removeStep t df m0 j).length = df.nrows := hstep m0 hm0
    obtain ⟨ihlen, ihget⟩ := ih hjs' (removeStep t df m0 j) hm1
    refine ⟨by simpa using ihlen, ?_⟩
    intro i hi
    have hfold : (j :: js).foldl (removeStep t df) m0 =
        js.foldl (removeStep t df) (removeStep t df m0 j) := rfl
    rw [hfold, ihget i hi]
    by_cases hiqr : colIQR ((df.cols.getD j default).cells) = 0
    · have hstep0 : removeStep t df m0 j = m0 := by
        unfold removeStep
        rw [if_pos hiqr]
      have hiqr' : (colIQR (df.colAt j).cells == 0) = true := by
        rw [beq_iff_eq]
        exact hiqr
      rw [hstep0]
      simp [hiqr']
    · have hstep1 : removeStep t df m0 j =
          andMask m0 (colMask t ((df.cols.getD j default).cells)) := by
        unfold removeStep
        rw [if_neg hiqr]
      have hiqr' : (colIQR (df.colAt j).cells == 0) = false := by
        rw [beq_eq_false_iff_ne]
        exact hiqr
      rw [hstep1]
      have hilt2 : i < (colMask t ((df.cols.getD j default).cells)).length := by
        rw [colMask_length]
        show i < (df.colAt j).cells.length
        rw [hclen]
        exact hi
      rw [getD_andMask (by rw [hm0]; exact hi) hilt2]
      have hcm : (colMask t ((df.cols.getD j default).cells)).getD i false =
          survCell t (df.colAt j).cells (df.cellAt j i) := by
        unfold colMask
        have : i < ((df.cols.getD j default).cells).length := by
          show i < (df.colAt j).cells.length
          rw [hclen]; exact hi
        rw [getD_map_lt _ this none]
        rfl
      rw [hcm]
      simp only [List.all_cons, hiqr', Bool.false_or]
      rw [Bool.and_assoc]

lemma removeMask_length {t : ℚ} {df : DF} (hw : df.wf = true) :
    (removeMask t df).length = df.nrows :=
  (removeFold_char t df hw (numIdx df) (fun _ => numIdx_lt)
    (List.replicate df.nrows true) (by simp)).1

lemma removeMask_getD {t : ℚ} {df : DF} (hw : df.wf = true) {i : Nat}
    (hi : i < df.nrows) :
    (removeMask t df).getD i false = rowSurvives t df i := by
  have h := (removeFold_char t df hw (numIdx df) (fun _ => numIdx_lt)
    (List.replicate df.nrows true) (by simp)).2 i hi
  unfold removeMask rowSurvives
  rw [h]
  have : (List.replicate df.nrows true).getD i false = true := by
    rw [List.getD_eq_getElem?_getD, List.getElem?_eq_getElem (by simpa using hi)]
    simp
  rw [this, Bool.true_and]

/-- The rows the remove branch keeps, as an index filter over the
original table. -/
lemma removeDF_rows {t : ℚ} {df : DF} (hw : df.wf = true) :
    (removeDF t df).rows =
      ((List.range df.nrows).filter (fun i => rowSurvives t df i)).map df.rowAt := by
  unfold removeDF
  rw [maskDF_rows hw (removeMask_length hw)]
  congr 1
  unfold maskIdx
  rw [removeMask_length hw]
  apply List.filter_congr
  intro i hi
  exact removeMask_getD hw (List.mem_range.mp hi)

lemma colAt_mem {df : DF} {j : Nat} (hj : j < df.cols.length) :
    df.colAt j ∈ df.cols := by
  unfold DF.colAt
  rw [List.getD_eq_getElem?_getD, List.getElem?_eq_getElem hj]
  exact List.getElem_mem hj

/-- In a well-formed table a numeric column holds only numbers or missing
markers. -/
lemma wf_numeric_cell {df : DF} (hw : df.wf = true) {j : Nat}
    (hj : j ∈ numIdx df) (i : Nat) :
    df.cellAt j i = none ∨ ∃ x, df.cellAt j i = some (Val.num x) := by
  unfold DF.cellAt
  by_cases hi : i < (df.colAt j).cells.length
  · have hcmem : df.colAt j ∈ df.cols := colAt_mem (numIdx_lt hj)
    have hgd : (df.colAt j).cells.getD i none = (df.colAt j).cells[i] := by
      rw [List.getD_eq_getElem?_getD, List.getElem?_eq_getElem hi]
      rfl
    have hok := wf_cellOk hw _ hcmem ((df.colAt j).cells[i]) (List.getElem_mem hi)
    rw [(mem_numIdx.mp hj).2] at hok
    rw [hgd]
    match hc : (df.colAt j).cells[i] with
    | none => exact Or.inl rfl
    | some (Val.num x) => exact Or.inr ⟨x, rfl⟩
    | some (Val.str s) =>
      rw [hc] at hok
      simp [cellOk] at hok
  · left
    rw [List.getD_eq_getElem?_getD, List.getElem?_eq_none (Nat.le_of_not_lt hi)]
    rfl

lemma runRemove_nonempty {t : ℚ} {p : Pipeline} (he : p.df.isEmpty = false) :
    (runRemove t p).df = removeDF t p.df := by
  unfold runRemove handle_outliers
  simp [he, stageState]

lemma runRemove_empty {t : ℚ} {p : Pipeline} (he : p.df.isEmpty = true) :
    (runRemove t p).df = p.df := by
  unfold runRemove handle_outliers
  simp [he, stageState]

/-- Claim C2: the remove method keeps exactly the rows that, in every
numeric column (zero-IQR columns imposing no constraint), hold an
in-bounds or missing value; a row failing in any one numeric column is
dropped; the retained rows are the original rows, unchanged and in
order. -/
theorem C2_remove_outliers (p : Pipeline) (t : ℚ) (hw : p.df.wf = true) :
    isError (handle_outliers t "remove" p) = false ∧
    (runRemove t p).df.rows =
      ((List.range p.df.nrows).filter (fun i => rowSurvives t p.df i)).map
        p.df.rowAt ∧
    (runRemove t p).df.nrows =
      ((List.range p.df.nrows).filter (fun i => rowSurvives t p.df i)).length ∧
    (∀ i, rowSurvives t p.df i = true ↔
      ∀ j ∈ numIdx p.df, colIQR (p.df.colAt j).cells = 0 ∨
        p.df.cellAt j i = none ∨
        ∃ x, p.df.cellAt j i = some (Val.num x) ∧
          lbOf t (p.df.colAt j).cells ≤ x ∧ x ≤ ubOf t (p.df.colAt j).cells) ∧
    (∀ i, rowSurvives t p.df i = false →
      ∃ j, j ∈ numIdx p.df ∧ ¬ colIQR (p.df.colAt j).cells = 0 ∧
        ∃ x, p.df.cellAt j i = some (Val.num x) ∧
          (x < lbOf t (p.df.colAt j).cells ∨ ubOf t (p.df.colAt j).cells < x)) := by
  have hiff : ∀ i, rowSurvives t p.df i = true ↔
      ∀ j ∈ numIdx p.df, colIQR (p.df.colAt j).cells = 0 ∨
        p.df.cellAt j i = none ∨
        ∃ x, p.df.cellAt j i = some (Val.num x) ∧
          lbOf t (p.df.colAt j).cells ≤ x ∧ x ≤ ubOf t (p.df.colAt j).cells := by
    intro i
    unfold rowSurvives
    rw [List.all_eq_true]
    constructor
    · intro hall j hjmem
      have hj := hall j hjmem
      rw [Bool.or_eq_true] at hj
      rcases hj with h0 | hs
      · exact Or.inl (beq_iff_eq.mp h0)
      · right
        rcases wf_numeric_cell hw hjmem i with hn | ⟨x, hx⟩
        · exact Or.inl hn
        · right
          refine ⟨x, hx, ?_⟩
          rw [hx] at hs
          simpa [survCell, cellNum] using hs
    · intro h j hjmem
      rcases h j hjmem with h0 | hn | ⟨x, hx, hb1, hb2⟩
      · rw [Bool.or_eq_true]
        exact Or.inl (beq_iff_eq.mpr h0)
      · rw [Bool.or_eq_true]
        right
        rw [hn]
        rfl
      · rw [Bool.or_eq_true]
        right
        rw [hx]
        simp [survCell, cellNum, hb1, hb2]
  have hrows : (runRemove t p).df.rows =
      ((List.range p.df.nrows).filter (fun i => rowSurvives t p.df i)).map
        p.df.rowAt := by
    by_cases he : p.df.isEmpty
    · rw [runRemove_empty he]
      unfold DF.isEmpty at he
      rw [Bool.or_eq_true] at he
      rcases he with hz | hcs
      · have hz' : p.df.nrows = 0 := by simpa using hz
        unfold DF.rows
        rw [hz']
        simp
      · have hcols : p.df.cols = [] := List.isEmpty_iff.mp hcs
        have hsurv : ∀ i, rowSurvives t p.df i = true := by
          intro i
          unfold rowSurvives numIdx
          rw [hcols]
          rfl
        have : (List.range p.df.nrows).filter (fun i => rowSurvives t p.df i) =
            List.range p.df.nrows := by
          apply List.filter_eq_self.mpr
          intro a _
          exact hsurv a
        rw [this]
        rfl
    · rw [runRemove_nonempty (by simpa using he)]
      exact removeDF_rows hw
  refine ⟨?_, hrows, ?_, hiff, ?_⟩
  · unfold handle_outliers
    by_cases he : p.df.isEmpty <;> simp [he, isError]
  · rw [← rows_length (runRemove t p).df, hrows, List.length_map]
  · intro i hfalse
    have hnot : ¬ (∀ j ∈ numIdx p.df, colIQR (p.df.colAt j).cells = 0 ∨
        p.df.cellAt j i = none ∨
        ∃ x, p.df.cellAt j i = some (Val.num x) ∧
          lbOf t (p.df.colAt j).cells ≤ x ∧ x ≤ ubOf t (p.df.colAt j).cells) := by
      intro hcon
      rw [← hiff i] at hcon
      rw [hfalse] at hcon
      exact Bool.false_ne_true hcon
    push_neg at hnot
    obtain ⟨j, hjmem, hj⟩ := hnot
    refine ⟨j, hjmem, hj.1, ?_⟩
    rcases wf_numeric_cell hw hjmem i with hn | ⟨x, hx⟩
    · exact absurd hn hj.2.1
    · refine ⟨x, hx, ?_⟩
      have hp := hj.2.2 x hx
      by_cases hle : lbOf t (p.df.colAt j).cells ≤ x
      · exact Or.inr (hp hle)
      · exact Or.inl (not_le.mp hle)

theorem C2_witness :
    dfC1.wf = true ∧
    (runRemove (3/2) (initPipeline dfC1)).df.rows =
      ((List.range dfC1.nrows).filter (fun i => rowSurvives (3/2) dfC1 i)).map
        dfC1.rowAt ∧
    (runRemove (3/2) (initPipeline dfC1)).df.nrows = 3 := by
  have h := C2_remove_outliers (initPipeline dfC1) (3/2) (by with_unfolding_all decide)
  refine ⟨by with_unfolding_all decide, h.2.1, ?_⟩
  have hn := h.2.2.1
  rw [hn]
  with_unfolding_all decide

/-- When a column holds a value strictly outside the bounds, cap clips it
to one of the two bounds (which one depends on the relative order of the
bounds, which a negative threshold can invert). -/
lemma capCells_getD_out {t : ℚ} {cells : List Cell} {i : Nat} {x : ℚ}
    (hiqr : colIQR cells ≠ 0) (hx : cells.getD i none = some (Val.num x))
    (hout : x < lbOf t cells ∨ ubOf t cells < x) :
    (capCells t cells).getD i none = some (Val.num (lbOf t cells)) ∨
    (capCells t cells).getD i none = some (Val.num (ubOf t cells)) := by
  have hi : i < cells.length := lt_length_of_getD_some hx
  have hgd : cells.getD i none = cells[i] := by
    rw [List.getD_eq_getElem?_getD, List.getElem?_eq_getElem hi]
    rfl
  have hmemcell : (some (Val.num x) : Cell) ∈ cells := by
    rw [← hx, hgd]
    exact List.getElem_mem hi
  have hhas : colHasOut (lbOf t cells) (ubOf t cells) cells = true := by
    unfold colHasOut
    rw [List.any_eq_true]
    refine ⟨some (Val.num x), hmemcell, ?_⟩
    simp only [cellNum]
    rcases hout with h1 | h2
    · simp [h1]
    · simp [h2]
  unfold capCells
  rw [if_neg hiqr]
  simp only [hhas, if_true]
  have hmem : i < (cells.map (clipLow (lbOf t cells))).length := by simpa using hi
  rw [getD_map_lt _ hmem none, getD_map_lt _ hi none, hx]
  rcases hout with h1 | h2
  · simp only [clipLow, clipHigh, if_pos h1]
    by_cases hul : ubOf t cells < lbOf t cells
    · rw [if_pos hul]
      exact Or.inr rfl
    · rw [if_neg hul]
      exact Or.inl rfl
  · by_cases hxl : x < lbOf t cells
    · simp only [clipLow, clipHigh, if_pos hxl]
      have hul : ubOf t cells < lbOf t cells := lt_trans h2 hxl
      rw [if_pos hul]
      exact Or.inr rfl
    · simp only [clipLow, clipHigh, if_neg hxl]
      rw [if_pos h2]
      exact Or.inr rfl

/-- Claim C9, amended: a threshold at or below zero shrinks the allowed
band inside [Q1, Q3], so every present value strictly outside [Q1, Q3]
of a positive-IQR numeric column is flagged: under cap it is replaced by
one of the bounds, under remove its row fails the survival mask.  Values
inside the shrunken band survive untouched, so the claim that every
present value is captured is too strong. -/
theorem C9_threshold_nonpositive (p : Pipeline) (t : ℚ) (hw : p.df.wf = true)
    (ht : t ≤ 0) :
    ∀ j ∈ numIdx p.df, 0 < colIQR (p.df.colAt j).cells →
      (colQ1 (p.df.colAt j).cells ≤ lbOf t (p.df.colAt j).cells ∧
        ubOf t (p.df.colAt j).cells ≤ colQ3 (p.df.colAt j).cells) ∧
      (∀ i x, p.df.cellAt j i = some (Val.num x) →
        (x < colQ1 (p.df.colAt j).cells ∨ colQ3 (p.df.colAt j).cells < x) →
        (x < lbOf t (p.df.colAt j).cells ∨ ubOf t (p.df.colAt j).cells < x) ∧
        ((runCap t p).df.cellAt j i =
            some (Val.num (lbOf t (p.df.colAt j).cells)) ∨
         (runCap t p).df.cellAt j i =
            some (Val.num (ubOf t (p.df.colAt j).cells))) ∧
        rowSurvives t p.df i = false) := by
  intro j hjmem hiqr
  have htiqr : t * colIQR (p.df.colAt j).cells ≤ 0 :=
    mul_nonpos_iff.mpr (Or.inr ⟨ht, le_of_lt hiqr⟩)
  have hql : colQ1 (p.df.colAt j).cells ≤ lbOf t (p.df.colAt j).cells := by
    unfold lbOf
    linarith
  have hqu : ubOf t (p.df.colAt j).cells ≤ colQ3 (p.df.colAt j).cells := by
    unfold ubOf
    linarith
  refine ⟨⟨hql, hqu⟩, ?_⟩
  intro i x hx houtq
  have hout : x < lbOf t (p.df.colAt j).cells ∨ ubOf t (p.df.colAt j).cells < x := by
    rcases houtq with h1 | h2
    · exact Or.inl (lt_of_lt_of_le h1 hql)
    · exact Or.inr (lt_of_le_of_lt hqu h2)
  refine ⟨hout, ?_, ?_⟩
  · have he : p.df.isEmpty = false := by
      unfold DF.isEmpty
      have hi : i < (p.df.colAt j).cells.length := lt_length_of_getD_some hx
      have hclen : (p.df.colAt j).cells.length = p.df.nrows :=
        wf_lengths hw _ (colAt_mem (numIdx_lt hjmem))
      have hnz : p.df.nrows ≠ 0 := by omega
      have hcne : p.df.cols.isEmpty = false := by
        rcases hcl : p.df.cols with _ | _
        · exfalso
          have := numIdx_lt hjmem
          rw [hcl] at this
          simp at this
        · simp
      simp [hnz, hcne]
    have hdfeq : (runCap t p).df = capDF t p.df := runCap_nonempty he
    have hcol : (runCap t p).df.colAt j = capColF t (p.df.colAt j) := by
      rw [hdfeq, capDF_colAt, if_pos ⟨hjmem, numIdx_lt hjmem⟩]
    have hcellAt : (runCap t p).df.cellAt j i =
        (capCells t (p.df.colAt j).cells).getD i none := by
      unfold DF.cellAt
      rw [hcol]
      rfl
    rw [hcellAt]
    exact capCells_getD_out (ne_of_gt hiqr) hx hout
  · apply List.all_eq_false.mpr
    refine ⟨j, hjmem, ?_⟩
    have h1 : (colIQR (p.df.colAt j).cells == 0) = false := by
      rw [beq_eq_false_iff_ne]
      exact ne_of_gt hiqr
    have h2 : survCell t (p.df.colAt j).cells (p.df.cellAt j i) = false := by
      rw [hx]
      rcases hout with ho | ho
      · simp [survCell, cellNum, not_le.mpr ho]
      · simp [survCell, cellNum, not_le.mpr ho]
    rw [h1, h2]
    simp

/-- A single numeric column with genuine spread, for the threshold
scenarios. -/
def dfQ : DF :=
  ⟨4,
    [⟨"v", DType.numeric,
      [some (Val.num 1), some (Val.num 2), some (Val.num 3), some (Val.num 4)]⟩]⟩

/-- Claim C9, counterexample to the claim as stated: with threshold 0
(which is ≤ 0) on values 1,2,3,4 the bounds are Q1 = 1.75 and Q3 = 3.25;
the present value 2 sits strictly inside them, is not flagged, survives
cap unchanged, and remove keeps two rows instead of dropping every row
with a present value. -/
theorem C9_counterexample :
    dfQ.wf = true ∧ ((0 : ℚ) ≤ 0) ∧
    0 < colIQR (dfQ.colAt 0).cells ∧
    (runCap 0 (initPipeline dfQ)).df.cellAt 0 1 = some (Val.num 2) ∧
    lbOf 0 (dfQ.colAt 0).cells < 2 ∧ (2 : ℚ) < ubOf 0 (dfQ.colAt 0).cells ∧
    (runRemove 0 (initPipeline dfQ)).df.nrows = 2 := by
  with_unfolding_all decide

theorem C9_witness :
    dfQ.wf = true ∧ ((0 : ℚ) ≤ 0) ∧ 0 < colIQR (dfQ.colAt 0).cells ∧
    colQ3 (dfQ.colAt 0).cells < 4 ∧
    ((runCap 0 (initPipeline dfQ)).df.cellAt 0 3 =
        some (Val.num (lbOf 0 (dfQ.colAt 0).cells)) ∨
     (runCap 0 (initPipeline dfQ)).df.cellAt 0 3 =
        some (Val.num (ubOf 0 (dfQ.colAt 0).cells))) ∧
    rowSurvives 0 dfQ 3 = false := by
  have h := C9_threshold_nonpositive (initPipeline dfQ) 0
    (by with_unfolding_all decide) (by with_unfolding_all decide) 0
    (by with_unfolding_all decide) (by with_unfolding_all decide)
  have h2 := h.2 3 4 (by with_unfolding_all decide)
    (Or.inr (by with_unfolding_all decide))
  exact ⟨by with_unfolding_all decide, by with_unfolding_all decide,
    by with_unfolding_all decide, by with_unfolding_all decide, h2.2.1, h2.2.2⟩

/-! ### impute_missing: the mode order and its extrema -/

lemma charListLE_refl : ∀ l : List Char, charListLE l l = true
  | [] => rfl
  | a :: as => by
    unfold charListLE
    rw [if_neg (lt_irrefl _), if_neg (lt_irrefl _)]
    exact charListLE_refl as

lemma charListLE_total : ∀ a b : List Char,
    charListLE a b = true ∨ charListLE b a = true
  | [], _ => Or.inl rfl
  | _ :: _, [] => Or.inr rfl
  | a :: as, b :: bs => by
    unfold charListLE
    rcases Nat.lt_trichotomy a.toNat b.toNat with h | h | h
    · left
      rw [if_pos h]
    · rw [if_neg (by omega), if_neg (by omega), if_neg (by omega), if_neg (by omega)]
      exact charListLE_total as bs
    · right
      rw [if_pos h]

lemma charListLE_trans : ∀ a b c : List Char,
    charListLE a b = true → charListLE b c = true → charListLE a c = true
  | [], _, _, _, _ => rfl
  | _ :: _, [], _, hab, _ => by simp [charListLE] at hab
  | _ :: _, _ :: _, [], _, hbc => by simp [charListLE] at hbc
  | x :: xs, y :: ys, z :: zs, hab, hbc => by
    unfold charListLE at hab hbc ⊢
    by_cases h1 : x.toNat < y.toNat
    · by_cases h2 : y.toNat < z.toNat
      · rw [if_pos (Nat.lt_trans h1 h2)]
      · by_cases h3 : z.toNat < y.toNat
        · rw [if_neg h2, if_pos h3] at hbc
          exact absurd hbc (by simp)
        · rw [if_pos (by omega : x.toNat < z.toNat)]
    · by_cases h4 : y.toNat < x.toNat
      · rw [if_neg h1, if_pos h4] at hab
        exact absurd hab (by simp)
      · rw [if_neg h1, if_neg h4] at hab
        by_cases h2 : y.toNat < z.toNat
        · rw [if_pos (by omega : x.toNat < z.toNat)]
        · by_cases h3 : z.toNat < y.toNat
          · rw [if_neg h2, if_pos h3] at hbc
            exact absurd hbc (by simp)
          · rw [if_neg h2, if_neg h3] at hbc
            rw [if_neg (by omega : ¬ x.toNat < z.toNat),
              if_neg (by omega : ¬ z.toNat < x.toNat)]
            exact charListLE_trans xs ys zs hab hbc

lemma valLE_refl (v : Val) : valLE v v = true := by
  cases v with
  | num a => simp [valLE]
  | str s => exact charListLE_refl s.data

lemma valLE_total (a b : Val) : valLE a b = true ∨ valLE b a = true := by
  cases a with
  | num x =>
    cases b with
    | num y =>
      rcases le_total x y with h | h
      · exact Or.inl (by simp [valLE, h])
      · exact Or.inr (by simp [valLE, h])
    | str t => exact Or.inl rfl
  | str s =>
    cases b with
    | num y => exact Or.inr rfl
    | str t => exact charListLE_total s.data t.data

lemma valLE_trans (a b c : Val) (hab : valLE a b = true) (hbc : valLE b c = true) :
    valLE a c = true := by
  cases a with
  | num x =>
    cases b with
    | num y =>
      cases c with
      | num z =>
        simp only [valLE, decide_eq_true_eq] at hab hbc ⊢
        exact le_trans hab hbc
      | str t => rfl
    | str s =>
      cases c with
      | num z => simp [valLE] at hbc
      | str t => rfl
  | str s =>
    cases b with
    | num y => simp [valLE] at hab
    | str u =>
      cases c with
      | num z => simp [valLE] at hbc
      | str t => exact charListLE_trans s.data u.data t.data hab hbc

/-- The minimum fold of listMinBy lands on a member that is below every
element. -/
lemma foldl_minBy_spec : ∀ (as : List Val) (a : Val),
    (as.foldl (fun m b => if valLE b m then b else m) a) ∈ a :: as ∧
    valLE (as.foldl (fun m b => if valLE b m then b else m) a) a = true ∧
    ∀ w ∈ as, valLE (as.foldl (fun m b => if valLE b m then b else m) a) w = true
  | [], a => ⟨List.mem_cons_self a [], valLE_refl a, by intro w hw; simp at hw⟩
  | b :: as, a => by
    by_cases hba : valLE b a
    · have hstep : ((b :: as).foldl (fun m c => if valLE c m then c else m) a) =
          (as.foldl (fun m c => if valLE c m then c else m) b) := by
        rw [List.foldl_cons]
        simp only [hba, if_true]
      obtain ⟨hmem, hleb, hall⟩ := foldl_minBy_spec as b
      rw [hstep]
      refine ⟨?_, valLE_trans _ b a hleb hba, ?_⟩
      · exact List.mem_cons_of_mem a hmem
      · intro w hw
        rcases List.mem_cons.mp hw with rfl | hw2
        · exact hleb
        · exact hall w hw2
    · have hab : valLE a b = true := by
        rcases valLE_total b a with hc | hc
        · exact absurd hc hba
        · exact hc
      have hstep : ((b :: as).foldl (fun m c => if valLE c m then c else m) a) =
          (as.foldl (fun m c => if valLE c m then c else m) a) := by
        rw [List.foldl_cons]
        simp [hba]
      obtain ⟨hmem, hlea, hall⟩ := foldl_minBy_spec as a
      rw [hstep]
      refine ⟨?_, hlea, ?_⟩
      · rcases List.mem_cons.mp hmem with h | h
        · rw [h]
          exact List.mem_cons_self a (b :: as)
        · exact List.mem_cons_of_mem a (List.mem_cons_of_mem b h)
      · intro w hw
        rcases List.mem_cons.mp hw with rfl | hw2
        · exact valLE_trans _ a w hlea hab
        · exact hall w hw2

lemma listMinBy_spec (l : List Val) (hl : l ≠ []) :
    ∃ m, listMinBy valLE l = some m ∧ m ∈ l ∧ ∀ w ∈ l, valLE m w = true := by
  cases l with
  | nil => exact absurd rfl hl
  | cons a as =>
    obtain ⟨hmem, _, hall⟩ := foldl_minBy_spec as a
    refine ⟨_, rfl, hmem, ?_⟩
    intro w hw
    rcases List.mem_cons.mp hw with h | hw2
    · rw [h]
      exact (foldl_minBy_spec as a).2.1
    · exact hall w hw2

lemma exists_max_count : ∀ (l : List Val) (f : Val → Nat) (a : Val),
    ∃ v ∈ a :: l, ∀ w ∈ a :: l, f w ≤ f v
  | [], _, a => ⟨a, List.mem_cons_self a [], by
      intro w hw
      rw [List.mem_singleton] at hw
      subst hw
      exact le_refl _⟩
  | b :: l, f, a => by
    obtain ⟨v, hv, hmax⟩ := exists_max_count l f (if f a ≤ f b then b else a)
    have hha : f a ≤ f (if f a ≤ f b then b else a) := by
      by_cases hc : f a ≤ f b
      · rw [if_pos hc]; exact hc
      · rw [if_neg hc]
    have hhb : f b ≤ f (if f a ≤ f b then b else a) := by
      by_cases hc : f a ≤ f b
      · rw [if_pos hc]
      · rw [if_neg hc]; omega
    have hhv : f (if f a ≤ f b then b else a) ≤ f v :=
      hmax _ (List.mem_cons_self _ l)
    refine ⟨v, ?_, ?_⟩
    · rcases List.mem_cons.mp hv with h | h
      · by_cases hc : f a ≤ f b
        · rw [if_pos hc] at h
          rw [h]
          exact List.mem_cons_of_mem a (List.mem_cons_self b l)
        · rw [if_neg hc] at h
          rw [h]
          exact List.mem_cons_self a (b :: l)
      · exact List.mem_cons_of_mem a (List.mem_cons_of_mem b h)
    · intro w hw
      rcases List.mem_cons.mp hw with h | hw2
      · rw [h]
        omega
      · rcases List.mem_cons.mp hw2 with h | hw3
        · rw [h]
          omega
        · exact hmax w (List.mem_cons_of_mem _ hw3)

lemma modeVal_none {cells : List Cell} (h : presentVals cells = []) :
    modeVal cells = none := by
  unfold modeVal
  rw [h]
  rfl

/-- pandas mode()[0] is a present value of maximal frequency that sorts
first among the ties. -/
lemma modeVal_spec {cells : List Cell} (h : presentVals cells ≠ []) :
    ∃ v, modeVal cells = some v ∧ v ∈ presentVals cells ∧
      (∀ w ∈ presentVals cells,
        (presentVals cells).count w ≤ (presentVals cells).count v) ∧
      (∀ w ∈ presentVals cells,
        (presentVals cells).count w = (presentVals cells).count v →
          valLE v w = true) := by
  set ps := presentVals cells with hps
  set cands := ps.dedup with hcands
  have hcne : cands ≠ [] := by
    rw [hcands]
    intro hcon
    exact h ((List.dedup_eq_nil _).mp hcon)
  obtain ⟨c0, cs, hcons⟩ := List.exists_cons_of_ne_nil hcne
  obtain ⟨vm, hvm, hvmax⟩ := by
    have := exists_max_count cs (fun v => ps.count v) c0
    rw [← hcons] at this
    exact this
  set best := cands.filter (fun v => cands.all (fun w => ps.count w ≤ ps.count v))
    with hbest
  have hvmbest : vm ∈ best := by
    rw [hbest]
    apply List.mem_filter.mpr
    exact ⟨hvm, List.all_eq_true.mpr (by
      intro w hw
      simpa using hvmax w hw)⟩
  have hbne : best ≠ [] := fun hcon => by
    rw [hcon] at hvmbest
    exact absurd hvmbest (List.not_mem_nil vm)
  obtain ⟨m, hmeq, hmmem, hmall⟩ := listMinBy_spec best hbne
  have hmcands : m ∈ cands := List.mem_of_mem_filter hmmem
  have hmmax : ∀ w ∈ ps, ps.count w ≤ ps.count m := by
    have hp := List.of_mem_filter hmmem
    intro w hw
    have hwcands : w ∈ cands := by
      rw [hcands]
      exact List.mem_dedup.mpr hw
    exact by simpa using (List.all_eq_true.mp hp) w hwcands
  refine ⟨m, ?_, ?_, hmmax, ?_⟩
  · show modeVal cells = some m
    unfold modeVal
    exact hmeq
  · rw [hcands] at hmcands
    exact List.mem_dedup.mp hmcands
  · intro w hw hcnt
    apply hmall
    rw [hbest]
    apply List.mem_filter.mpr
    refine ⟨by rw [hcands]; exact List.mem_dedup.mpr hw, ?_⟩
    apply List.all_eq_true.mpr
    intro u hu
    have := hmmax u (by rw [hcands] at hu; exact List.mem_dedup.mp hu)
    simp only [decide_eq_true_eq]
    omega

/-! ### impute_missing: per-column behaviour -/

/-- Every branch of imputeCells leaves the column unchanged or fills the
missing cells with one fixed value. -/
lemma imputeCells_shape (dtype : DType) (cells : List Cell) :
    imputeCells dtype cells = cells ∨
    ∃ v, imputeCells dtype cells = cells.map (fillCell v) := by
  by_cases ha : cells.any (fun c => c.isNone) = true
  · cases dtype with
    | numeric =>
      by_cases h2 : (presentNums cells).isEmpty
      · left
        simp [imputeCells, ha, h2]
      · right
        exact ⟨Val.num (medianOf cells), by simp [imputeCells, ha, h2]⟩
    | text =>
      cases h3 : modeVal cells with
      | none => left; simp [imputeCells, ha, h3]
      | some v => right; exact ⟨v, by simp [imputeCells, ha, h3]⟩
    | category =>
      cases h3 : modeVal cells with
      | none => left; simp [imputeCells, ha, h3]
      | some v => right; exact ⟨v, by simp [imputeCells, ha, h3]⟩
    | datetime =>
      cases h3 : modeVal cells with
      | none => left; simp [imputeCells, ha, h3]
      | some v => right; exact ⟨v, by simp [imputeCells, ha, h3]⟩
  · left
    simp [imputeCells, ha]

lemma imputeCells_getD_present (dtype : DType) (cells : List Cell) {i : Nat}
    {w : Val} (h : cells.getD i none = some w) :
    (imputeCells dtype cells).getD i none = some w := by
  have hi : i < cells.length := lt_length_of_getD_some h
  rcases imputeCells_shape dtype cells with heq | ⟨v, heq⟩
  · rw [heq, h]
  · rw [heq, getD_map_lt _ hi none, h]
    rfl

lemma presentNums_of_presentVals_nil {cells : List Cell}
    (h : presentVals cells = []) : presentNums cells = [] := by
  have hall := List.filterMap_eq_nil_iff.mp h
  apply List.filterMap_eq_nil_iff.mpr
  intro c hc
  have : c = none := by simpa using hall c hc
  rw [this]
  rfl

/-- An all-missing column is left untouched by imputation (numeric ones
because the median is NaN, the rest because no mode exists). -/
lemma imputeCells_all_missing (dtype : DType) {cells : List Cell}
    (h : presentVals cells = []) : imputeCells dtype cells = cells := by
  have hnums : presentNums cells = [] := presentNums_of_presentVals_nil h
  have hmode : modeVal cells = none := modeVal_none h
  by_cases ha : cells.any (fun c => c.isNone) = true
  · cases dtype with
    | numeric => simp [imputeCells, ha, hnums]
    | text => simp [imputeCells, ha, hmode]
    | category => simp [imputeCells, ha, hmode]
    | datetime => simp [imputeCells, ha, hmode]
  · simp [imputeCells, ha]

lemma any_isNone_of_getD_none {cells : List Cell} {i : Nat}
    (hi : i < cells.length) (hnone : cells.getD i none = none) :
    cells.any (fun c => c.isNone) = true := by
  apply List.any_eq_true.mpr
  refine ⟨cells[i], List.getElem_mem hi, ?_⟩
  have : cells[i] = none := by
    rw [List.getD_eq_getElem?_getD, List.getElem?_eq_getElem hi] at hnone
    simpa using hnone
  rw [this]
  rfl

lemma imputeCells_getD_missing_numeric {cells : List Cell}
    (hnums : presentNums cells ≠ []) {i : Nat} (hi : i < cells.length)
    (hnone : cells.getD i none = none) :
    (imputeCells DType.numeric cells).getD i none =
      some (Val.num (medianOf cells)) := by
  have ha := any_isNone_of_getD_none hi hnone
  have h2 : (presentNums cells).isEmpty = false := by
    by_cases hq : (presentNums cells).isEmpty = true
    · exact absurd (List.isEmpty_iff.mp hq) hnums
    · simpa using hq
  unfold imputeCells
  rw [if_pos ha]
  simp only [h2, Bool.false_eq_true, if_false]
  rw [getD_map_lt _ hi none, hnone]
  rfl

lemma imputeCells_getD_missing_mode {dtype : DType} {cells : List Cell} {v : Val}
    (hd : dtype ≠ DType.numeric) (hv : modeVal cells = some v) {i : Nat}
    (hi : i < cells.length) (hnone : cells.getD i none = none) :
    (imputeCells dtype cells).getD i none = some v := by
  have ha := any_isNone_of_getD_none hi hnone
  have hfill : (cells.map (fillCell v)).getD i none = some v := by
    rw [getD_map_lt _ hi none, hnone]
    rfl
  cases dtype with
  | numeric => exact absurd rfl hd
  | text =>
    unfold imputeCells
    rw [if_pos ha]
    simp only [hv]
    exact hfill
  | category =>
    unfold imputeCells
    rw [if_pos ha]
    simp only [hv]
    exact hfill
  | datetime =>
    unfold imputeCells
    rw [if_pos ha]
    simp only [hv]
    exact hfill

lemma imputeDF_colAt {df : DF} {j : Nat} (hj : j < df.cols.length) :
    (imputeDF df).colAt j = imputeColF (df.colAt j) := by
  unfold imputeDF imputeFold DF.colAt
  rw [getD_updCols _ _ (List.nodup_range _) _ j,
    if_pos ⟨List.mem_range.mpr hj, hj⟩]

/-- The column loop of impute_missing may be run in any order: each
iteration reads and writes only its own column. -/
lemma imputeFold_perm (df : DF) (ord : List Nat)
    (hperm : ord.Perm (List.range df.cols.length)) :
    imputeFold ord df = imputeDF df := by
  unfold imputeFold imputeDF
  have hnd : ord.Nodup := (hperm.nodup_iff).mpr (List.nodup_range _)
  have hcols : updCols imputeColF ord df.cols =
      updCols imputeColF (List.range df.cols.length) df.cols := by
    apply List.ext_getElem
    · rw [length_updCols, length_updCols]
    · intro i h1 h2
      have e1 : (updCols imputeColF ord df.cols)[i] =
          (updCols imputeColF ord df.cols).getD i default := by
        rw [List.getD_eq_getElem?_getD, List.getElem?_eq_getElem h1]
        rfl
      have e2 : (updCols imputeColF (List.range df.cols.length) df.cols)[i] =
          (updCols imputeColF (List.range df.cols.length) df.cols).getD i default := by
        rw [List.getD_eq_getElem?_getD, List.getElem?_eq_getElem h2]
        rfl
      rw [e1, e2, getD_updCols _ _ hnd, getD_updCols _ _ (List.nodup_range _)]
      have hmemiff : (i ∈ ord ∧ i < df.cols.length) ↔
          (i ∈ List.range df.cols.length ∧ i < df.cols.length) := by
        rw [hperm.mem_iff]
      rw [if_congr hmemiff rfl rfl]
  rw [hcols]
  rfl

/-- Claim C4: impute_missing keeps the shape, the names and the dtypes;
present cells are untouched; all-missing columns stay all-missing; every
formerly missing cell of a numeric column becomes the median of the
pre-stage present values; every formerly missing cell of a non-numeric
column becomes the most frequent present value, ties broken by the value
that sorts first; and the column processing order is irrelevant. -/
theorem C4_impute_missing (p : Pipeline) (hw : p.df.wf = true) :
    (impute_missing p).df.nrows = p.df.nrows ∧
    (impute_missing p).df.ncols = p.df.ncols ∧
    (∀ j, j < p.df.ncols →
      ((impute_missing p).df.colAt j).name = (p.df.colAt j).name ∧
      ((impute_missing p).df.colAt j).dtype = (p.df.colAt j).dtype ∧
      (∀ i w, p.df.cellAt j i = some w →
        (impute_missing p).df.cellAt j i = some w) ∧
      (presentVals (p.df.colAt j).cells = [] →
        (impute_missing p).df.colAt j = p.df.colAt j) ∧
      ((p.df.colAt j).dtype = DType.numeric →
        presentNums (p.df.colAt j).cells ≠ [] →
        ∀ i, i < p.df.nrows → p.df.cellAt j i = none →
          (impute_missing p).df.cellAt j i =
            some (Val.num (medianOf (p.df.colAt j).cells))) ∧
      ((p.df.colAt j).dtype ≠ DType.numeric →
        presentVals (p.df.colAt j).cells ≠ [] →
        ∃ v, v ∈ presentVals (p.df.colAt j).cells ∧
          (∀ w ∈ presentVals (p.df.colAt j).cells,
            (presentVals (p.df.colAt j).cells).count w ≤
              (presentVals (p.df.colAt j).cells).count v) ∧
          (∀ w ∈ presentVals (p.df.colAt j).cells,
            (presentVals (p.df.colAt j).cells).count w =
              (presentVals (p.df.colAt j).cells).count v → valLE v w = true) ∧
          (∀ i, i < p.df.nrows → p.df.cellAt j i = none →
            (impute_missing p).df.cellAt j i = some v))) ∧
    (∀ ord, ord.Perm (List.range p.df.ncols) →
      imputeFold ord p.df = imputeDF p.df) := by
  by_cases he : p.df.isEmpty
  · have hq : impute_missing p = p := by simp [impute_missing, he]
    refine ⟨by rw [hq], by rw [hq], ?_, fun ord hp => imputeFold_perm p.df ord hp⟩
    intro j hj
    have hcells : (p.df.colAt j).cells = [] := empty_col_cells hw he hj
    refine ⟨by rw [hq], by rw [hq], ?_, fun _ => by rw [hq], ?_, ?_⟩
    · intro i w hcell
      rw [hq]
      exact hcell
    · intro _ hne
      exfalso
      apply hne
      rw [hcells]
      rfl
    · intro _ hne
      exfalso
      apply hne
      rw [hcells]
      rfl
  · have hq : (impute_missing p).df = imputeDF p.df := by simp [impute_missing, he]
    have hnc : (impute_missing p).df.ncols = p.df.ncols := by
      rw [hq]
      unfold imputeDF imputeFold DF.ncols
      exact length_updCols _ _ _
    refine ⟨by rw [hq]; rfl, hnc, ?_, fun ord hp => imputeFold_perm p.df ord hp⟩
    intro j hj
    have hcol : (impute_missing p).df.colAt j = imputeColF (p.df.colAt j) := by
      rw [hq]
      exact imputeDF_colAt hj
    have hcellAt : ∀ i, (impute_missing p).df.cellAt j i =
        (imputeCells (p.df.colAt j).dtype (p.df.colAt j).cells).getD i none := by
      intro i
      unfold DF.cellAt
      rw [hcol]
      rfl
    have hclen : (p.df.colAt j).cells.length = p.df.nrows :=
      wf_lengths hw _ (colAt_mem hj)
    refine ⟨by rw [hcol]; rfl, by rw [hcol]; rfl, ?_, ?_, ?_, ?_⟩
    · intro i w hcell
      rw [hcellAt i]
      exact imputeCells_getD_present _ _ hcell
    · intro hnil
      rw [hcol]
      unfold imputeColF
      rw [imputeCells_all_missing _ hnil]
    · intro hdt hnums i hi hnone
      rw [hcellAt i]
      unfold DF.cellAt at hnone
      rw [hdt]
      exact imputeCells_getD_missing_numeric hnums (by omega) hnone
    · intro hdt hvals
      obtain ⟨v, hveq, hvmem, hvmax, hvtie⟩ := modeVal_spec hvals
      refine ⟨v, hvmem, hvmax, hvtie, ?_⟩
      intro i hi hnone
      rw [hcellAt i]
      unfold DF.cellAt at hnone
      exact imputeCells_getD_missing_mode hdt hveq (by omega) hnone

/-- A store exercising both imputation branches: a numeric column with a
missing value (median 3) and a text column with a missing value and a
frequency tie broken by sort order. -/
def dfI : DF :=
  ⟨4,
    [⟨"a", DType.numeric,
      [some (Val.num 1), none, some (Val.num 3), some (Val.num 10)]⟩,
     ⟨"b", DType.text,
      [some (Val.str "x"), none, some (Val.str "y"), some (Val.str "x")]⟩]⟩

theorem C4_witness :
    dfI.wf = true ∧
    (impute_missing (initPipeline dfI)).df.cellAt 0 1 =
      some (Val.num (medianOf (dfI.colAt 0).cells)) ∧
    (∃ v, v ∈ presentVals (dfI.colAt 1).cells ∧
      (∀ w ∈ presentVals (dfI.colAt 1).cells,
        (presentVals (dfI.colAt 1).cells).count w ≤
          (presentVals (dfI.colAt 1).cells).count v) ∧
      (∀ w ∈ presentVals (dfI.colAt 1).cells,
        (presentVals (dfI.colAt 1).cells).count w =
          (presentVals (dfI.colAt 1).cells).count v → valLE v w = true) ∧
      (∀ i, i < dfI.nrows → dfI.cellAt 1 i = none →
        (impute_missing (initPipeline dfI)).df.cellAt 1 i = some v)) := by
  have h := C4_impute_missing (initPipeline dfI) (by with_unfolding_all decide)
  refine ⟨by with_unfolding_all decide, ?_, ?_⟩
  · exact (h.2.2.1 0 (by with_unfolding_all decide)).2.2.2.2.1
      (by with_unfolding_all decide) (by with_unfolding_all decide) 1
      (by with_unfolding_all decide) (by with_unfolding_all decide)
  · exact (h.2.2.1 1 (by with_unfolding_all decide)).2.2.2.2.2
      (by with_unfolding_all decide) (by with_unfolding_all decide)

/-! ### standardize: character and trimming lemmas -/

lemma char_toNat_ofNat {n : Nat} (h : n < 55296) : (Char.ofNat n).toNat = n := by
  have hv : n.isValidChar := Or.inl h
  rw [Char.ofNat, dif_pos hv]
  show (Char.ofNatAux n hv).toNat = n
  unfold Char.ofNatAux Char.toNat
  simp [UInt32.toNat]

lemma char_eq_of_toNat_eq {a b : Char} (h : a.toNat = b.toNat) : a = b := by
  apply Char.ext
  apply UInt32.eq_of_toBitVec_eq
  exact BitVec.eq_of_toNat_eq h

lemma isPySpace_iff {c : Char} : isPySpace c = true ↔
    (c.toNat = 32 ∨ c.toNat = 9 ∨ c.toNat = 10 ∨ c.toNat = 13 ∨
      c.toNat = 11 ∨ c.toNat = 12) := by
  simp [isPySpace, or_assoc]

lemma isWordChar_iff {c : Char} : isWordChar c = true ↔
    ((65 ≤ c.toNat ∧ c.toNat ≤ 90) ∨ (97 ≤ c.toNat ∧ c.toNat ≤ 122) ∨
      (48 ≤ c.toNat ∧ c.toNat ≤ 57) ∨ c.toNat = 95) := by
  simp [isWordChar, or_assoc]

lemma toLower_toNat (c : Char) :
    (Char.toLower c).toNat =
      if 65 ≤ c.toNat ∧ c.toNat ≤ 90 then c.toNat + 32 else c.toNat := by
  unfold Char.toLower
  by_cases h : 65 ≤ c.toNat ∧ c.toNat ≤ 90
  · rw [if_pos (by exact ⟨h.1, h.2⟩), if_pos h]
    exact char_toNat_ofNat (by omega)
  · rw [if_neg (by exact fun hc => h ⟨hc.1, hc.2⟩), if_neg h]

lemma toLower_eq_self {c : Char} (h : ¬ (65 ≤ c.toNat ∧ c.toNat ≤ 90)) :
    Char.toLower c = c := by
  unfold Char.toLower
  rw [if_neg (by exact fun hc => h ⟨hc.1, hc.2⟩)]

lemma toLower_not_upper (c : Char) :
    ¬ (65 ≤ (Char.toLower c).toNat ∧ (Char.toLower c).toNat ≤ 90) := by
  rw [toLower_toNat]
  by_cases h : 65 ≤ c.toNat ∧ c.toNat ≤ 90
  · rw [if_pos h]
    omega
  · rw [if_neg h]
    omega

lemma isPySpace_toLower (c : Char) : isPySpace (Char.toLower c) = isPySpace c := by
  by_cases h : 65 ≤ c.toNat ∧ c.toNat ≤ 90
  · have h1 : isPySpace c = false := by
      by_cases hs : isPySpace c = true
      · rw [isPySpace_iff] at hs
        omega
      · simpa using hs
    have h2 : isPySpace (Char.toLower c) = false := by
      by_cases hs : isPySpace (Char.toLower c) = true
      · rw [isPySpace_iff, toLower_toNat, if_pos h] at hs
        omega
      · simpa using hs
    rw [h1, h2]
  · rw [toLower_eq_self h]

lemma not_pySpace_of_word {c : Char} (h : isWordChar c = true) :
    isPySpace c = false := by
  rw [isWordChar_iff] at h
  by_cases hs : isPySpace c = true
  · rw [isPySpace_iff] at hs
    omega
  · simpa using hs

lemma dropWhile_dropWhile (p : Char → Bool) (l : List Char) :
    (l.dropWhile p).dropWhile p = l.dropWhile p := by
  cases hd : l.dropWhile p with
  | nil => rfl
  | cons c cs =>
    have hne : l.dropWhile p ≠ [] := by rw [hd]; simp
    have hc := List.head_dropWhile_not p l hne
    simp only [hd, List.head_cons] at hc
    rw [List.dropWhile_cons]
    simp [hc]

lemma dropWhile_eq_self_of_none (p : Char → Bool) (l : List Char)
    (h : ∀ c ∈ l, p c = false) : l.dropWhile p = l := by
  cases l with
  | nil => rfl
  | cons c cs =>
    rw [List.dropWhile_cons, if_neg (by simp [h c (List.mem_cons_self c cs)])]

lemma stripL_idem (l : List Char) : stripL (stripL l) = stripL l := by
  unfold stripL
  set a := l.dropWhile isPySpace with ha
  set b := (a.reverse.dropWhile isPySpace).reverse with hb
  have hsuff : List.IsSuffix (a.reverse.dropWhile isPySpace) a.reverse :=
    List.dropWhile_suffix _
  have hpref : List.IsPrefix b a := by
    have h := List.reverse_prefix.mpr hsuff
    rw [List.reverse_reverse] at h
    rw [hb]
    exact h
  have h1 : b.dropWhile isPySpace = b := by
    cases hbc : b with
    | nil => rfl
    | cons c cs =>
      obtain ⟨t, hta⟩ := hpref
      rw [hbc] at hta
      have hdl : l.dropWhile isPySpace = c :: (cs ++ t) := by
        rw [← ha, ← hta]
        rfl
      have hne : l.dropWhile isPySpace ≠ [] := by rw [hdl]; simp
      have hc := List.head_dropWhile_not isPySpace l hne
      simp only [hdl, List.head_cons] at hc
      rw [List.dropWhile_cons]
      simp [hc]
  have h2 : b.reverse.dropWhile isPySpace = b.reverse := by
    rw [hb, List.reverse_reverse]
    exact dropWhile_dropWhile _ _
  rw [h1, h2, List.reverse_reverse]

lemma pyStrip_idem (s : String) : pyStrip (pyStrip s) = pyStrip s := by
  unfold pyStrip
  exact congrArg String.mk (stripL_idem s.data)

lemma stripL_sublist (l : List Char) : List.Sublist (stripL l) l := by
  unfold stripL
  have h1 : List.Sublist (l.dropWhile isPySpace) l :=
    (List.dropWhile_suffix _).sublist
  have h2 : List.Sublist ((l.dropWhile isPySpace).reverse.dropWhile isPySpace)
      (l.dropWhile isPySpace).reverse := (List.dropWhile_suffix _).sublist
  have h3 := h2.reverse
  rw [List.reverse_reverse] at h3
  exact h3.trans h1

/-- After one pass of the name transform, provided the original name held
no whitespace other than plain spaces, every character is a word
character and no character is an upper-case letter. -/
lemma transformNameL_chars (l : List Char)
    (H : ∀ c ∈ l, isPySpace c = true → c.toNat = 32) :
    ∀ c ∈ transformNameL l,
      isWordChar c = true ∧ ¬ (65 ≤ c.toNat ∧ c.toNat ≤ 90) := by
  intro c hc
  unfold transformNameL at hc
  have hfilter := List.mem_filter.mp hc
  obtain ⟨c1, hc1, hrepl⟩ := List.mem_map.mp hfilter.1
  obtain ⟨c0, hc0, hlow⟩ := List.mem_map.mp hc1
  have hc0l : c0 ∈ l := (stripL_sublist l).mem hc0
  have hnotsp : isPySpace c = false := by
    by_cases hsp : isPySpace c = true
    · exfalso
      by_cases hspace : c1 = ' '
      · rw [← hrepl, if_pos hspace] at hsp
        rw [isPySpace_iff] at hsp
        have : ('_' : Char).toNat = 95 := rfl
        omega
      · rw [← hrepl, if_neg hspace] at hsp
        rw [← hlow, isPySpace_toLower] at hsp
        have h32 := H c0 hc0l hsp
        have hc0sp : c0 = ' ' := char_eq_of_toNat_eq (by rw [h32]; rfl)
        apply hspace
        rw [← hlow, hc0sp]
        rfl
    · simpa using hsp
  have hword : isWordChar c = true := by
    have hor : isWordChar c = true ∨ isPySpace c = true := by
      simpa using hfilter.2
    rcases hor with hw | hs
    · exact hw
    · rw [hnotsp] at hs
      exact absurd hs (by simp)
  refine ⟨hword, ?_⟩
  by_cases hspace : c1 = ' '
  · rw [← hrepl, if_pos hspace]
    have : ('_' : Char).toNat = 95 := rfl
    omega
  · rw [← hrepl, if_neg hspace, ← hlow]
    exact toLower_not_upper c0

/-- The name transform fixes any string of lower-case word characters. -/
lemma transformNameL_fix (r : List Char)
    (Hr : ∀ c ∈ r, isWordChar c = true ∧ ¬ (65 ≤ c.toNat ∧ c.toNat ≤ 90)) :
    transformNameL r = r := by
  have hnsp : ∀ c ∈ r, isPySpace c = false := fun c hc =>
    not_pySpace_of_word (Hr c hc).1
  have hstrip : stripL r = r := by
    unfold stripL
    rw [dropWhile_eq_self_of_none _ _ hnsp]
    rw [dropWhile_eq_self_of_none _ _ (fun c hc => hnsp c (List.mem_reverse.mp hc))]
    exact List.reverse_reverse r
  have hlower : r.map Char.toLower = r := by
    have : r.map Char.toLower = r.map id := by
      apply List.map_congr_left
      intro c hc
      exact toLower_eq_self (Hr c hc).2
    rw [this, List.map_id]
  have hreplace : r.map (fun c => if c = ' ' then '_' else c) = r := by
    have : r.map (fun c => if c = ' ' then '_' else c) = r.map id := by
      apply List.map_congr_left
      intro c hc
      have hw := (Hr c hc).1
      rw [isWordChar_iff] at hw
      have : c ≠ ' ' := by
        intro hcon
        rw [hcon] at hw
        have : (' ' : Char).toNat = 32 := rfl
        omega
      simp [this]
    rw [this, List.map_id]
  have hfilter : r.filter (fun c => isWordChar c || isPySpace c) = r := by
    apply List.filter_eq_self.mpr
    intro c hc
    simp [(Hr c hc).1]
  unfold transformNameL
  rw [hstrip, hlower, hreplace, hfilter]

/-- One application of the name transform reaches a fixed point, when the
original name holds no whitespace other than plain spaces. -/
lemma transformName_fix (s : String)
    (H : ∀ c ∈ s.data, isPySpace c = true → c.toNat = 32) :
    transformName (transformName s) = transformName s := by
  unfold transformName
  exact congrArg String.mk (transformNameL_fix _ (transformNameL_chars s.data H))

lemma stdTextCell_idem (c : Cell) : stdTextCell (stdTextCell c) = stdTextCell c := by
  unfold stdTextCell cellToStr
  exact congrArg (fun s => some (Val.str s)) (pyStrip_idem _)

/-- Claim C6, amended: standardize is idempotent on the cell values
always, and on the whole store whenever no column name holds a
whitespace character other than the plain space.  (Stripping punctuation
can expose a trailing tab or newline that only a second pass trims, so
full idempotence needs this proviso.) -/
theorem C6_standardize_idempotent (p : Pipeline)
    (hn : ∀ c ∈ p.df.cols, ∀ ch ∈ c.name.data,
      isPySpace ch = true → ch.toNat = 32) :
    standardizeDF (standardizeDF p.df) = standardizeDF p.df ∧
    (standardize (standardize p)).df = (standardize p).df := by
  have hdf : standardizeDF (standardizeDF p.df) = standardizeDF p.df := by
    unfold standardizeDF
    simp only [List.map_map]
    congr 1
    apply List.map_congr_left
    intro c hc
    show stdCol (stdCol c) = stdCol c
    have hname := transformName_fix c.name (hn c hc)
    by_cases hdt : c.dtype = DType.text
    · have h1 : stdCol c =
          ⟨transformName c.name, c.dtype, c.cells.map stdTextCell⟩ := by
        unfold stdCol
        rw [if_pos hdt]
      have h2 : stdCol (stdCol c) =
          ⟨transformName (transformName c.name), c.dtype,
            (c.cells.map stdTextCell).map stdTextCell⟩ := by
        rw [h1]
        unfold stdCol
        rw [if_pos hdt]
      rw [h2, h1, hname, List.map_map]
      congr 1
      apply List.map_congr_left
      intro x hx
      show stdTextCell (stdTextCell x) = stdTextCell x
      exact stdTextCell_idem x
    · have h1 : stdCol c = ⟨transformName c.name, c.dtype, c.cells⟩ := by
        unfold stdCol
        rw [if_neg hdt]
      have h2 : stdCol (stdCol c) =
          ⟨transformName (transformName c.name), c.dtype, c.cells⟩ := by
        rw [h1]
        unfold stdCol
        rw [if_neg hdt]
      rw [h2, h1, hname]
  refine ⟨hdf, ?_⟩
  have hstd : ∀ q : Pipeline,
      (standardize q).df = if q.df.isEmpty then q.df else standardizeDF q.df := by
    intro q
    unfold standardize
    by_cases he : q.df.isEmpty <;> simp [he]
  by_cases he : p.df.isEmpty
  · rw [hstd (standardize p), hstd p, if_pos he]
    rw [if_pos he]
  · have he' : p.df.isEmpty = false := by simpa using he
    have hq : (standardize p).df = standardizeDF p.df := by
      rw [hstd p, if_neg he]
    have hqe : (standardize p).df.isEmpty = false := by
      rw [hq]
      unfold DF.isEmpty at he' ⊢
      unfold standardizeDF
      simp only []
      rw [Bool.or_eq_false_iff] at he' ⊢
      refine ⟨he'.1, ?_⟩
      cases hcs : p.df.cols with
      | nil =>
        rw [hcs] at he'
        exact absurd he'.2 (by simp)
      | cons a l => simp [hcs]
    rw [hstd (standardize p)]
    rw [if_neg (by simp [hqe])]
    rw [hq]
    exact hdf

/-- A store whose column name holds a tab before a punctuation mark: the
first pass deletes the mark, exposing a trailing tab that only the second
pass strips. -/
def dfT : DF := ⟨1, [⟨"a\t!", DType.text, [some (Val.str "x")]⟩]⟩

/-- Claim C6, counterexample to the claim as stated: on the name with an
interior tab before punctuation, one standardize pass yields the name
with a trailing tab, the second pass strips it, so the two results
differ. -/
theorem C6_counterexample :
    standardizeDF (standardizeDF dfT) ≠ standardizeDF dfT ∧
    ((standardizeDF dfT).colAt 0).name = "a\t" ∧
    ((standardizeDF (standardizeDF dfT)).colAt 0).name = "a" ∧
    (standardize (standardize (initPipeline dfT))).df ≠
      (standardize (initPipeline dfT)).df := by
  with_unfolding_all decide

/-- A store with ordinary spaced names and untrimmed cells. -/
def dfW : DF :=
  ⟨1, [⟨" First Name! ", DType.text, [some (Val.str " a b ")]⟩]⟩

theorem C6_witness :
    (∀ c ∈ dfW.cols, ∀ ch ∈ c.name.data, isPySpace ch = true → ch.toNat = 32) ∧
    standardizeDF (standardizeDF dfW) = standardizeDF dfW := by
  have h := C6_standardize_idempotent (initPipeline dfW) (by with_unfolding_all decide)
  exact ⟨by with_unfolding_all decide, h.1⟩

lemma standardize_df_nonempty {p : Pipeline} (he : p.df.isEmpty = false) :
    (standardize p).df = standardizeDF p.df := by
  unfold standardize
  simp [he]

lemma standardizeDF_colAt {df : DF} {j : Nat} (hj : j < df.cols.length) :
    (standardizeDF df).colAt j = stdCol (df.colAt j) := by
  unfold standardizeDF DF.colAt
  exact getD_map_lt stdCol hj default default

lemma standardizeDF_isEmpty (df : DF) :
    (standardizeDF df).isEmpty = df.isEmpty := by
  unfold DF.isEmpty standardizeDF
  cases df.cols <;> simp

/-- Claim C10: standardize coerces every cell of an object column through
astype(str), so a missing value becomes the literal present text nan; no
text column of the standardized store holds a missing marker; in a store
that has a text column, no row of the standardized store counts as fully
missing for handle_garbage; and impute_missing leaves the text columns
of the standardized store untouched. -/
theorem C10_text_nan (p : Pipeline) (hw : p.df.wf = true)
    (he : p.df.isEmpty = false) :
    (∀ j, j < p.df.ncols → (p.df.colAt j).dtype = DType.text →
      (∀ i, i < p.df.nrows →
        ((standardize p).df.cellAt j i).isSome = true) ∧
      (∀ i, i < p.df.nrows → p.df.cellAt j i = none →
        (standardize p).df.cellAt j i = some (Val.str "nan"))) ∧
    ((∃ j, j < p.df.ncols ∧ (p.df.colAt j).dtype = DType.text) →
      ∀ i, i < p.df.nrows →
        allMissingRow ((standardize p).df.rowAt i) = false) ∧
    (∀ j, j < p.df.ncols → (p.df.colAt j).dtype = DType.text →
      (impute_missing (standardize p)).df.colAt j =
        (standardize p).df.colAt j) := by
  have hq : (standardize p).df = standardizeDF p.df := standardize_df_nonempty he
  have hcells : ∀ j, j < p.df.ncols → (p.df.colAt j).dtype = DType.text →
      ((standardize p).df.colAt j).cells =
        (p.df.colAt j).cells.map stdTextCell := by
    intro j hj hdt
    rw [hq, standardizeDF_colAt hj]
    unfold stdCol
    rw [if_pos hdt]
  have hclen : ∀ j, j < p.df.ncols →
      (p.df.colAt j).cells.length = p.df.nrows := by
    intro j hj
    exact wf_lengths hw _ (colAt_mem hj)
  have hsomeAt : ∀ j, j < p.df.ncols → (p.df.colAt j).dtype = DType.text →
      ∀ i, i < p.df.nrows →
      (standardize p).df.cellAt j i =
        stdTextCell ((p.df.colAt j).cells.getD i none) := by
    intro j hj hdt i hi
    unfold DF.cellAt
    rw [hcells j hj hdt]
    exact getD_map_lt _ (by rw [hclen j hj]; exact hi) none none
  refine ⟨?_, ?_, ?_⟩
  · intro j hj hdt
    constructor
    · intro i hi
      rw [hsomeAt j hj hdt i hi]
      unfold stdTextCell
      rfl
    · intro i hi hnone
      rw [hsomeAt j hj hdt i hi]
      unfold DF.cellAt at hnone
      rw [hnone]
      show some (Val.str (pyStrip (cellToStr none))) = some (Val.str "nan")
      have : pyStrip "nan" = "nan" := by decide
      rw [show cellToStr none = "nan" from rfl, this]
  · rintro ⟨j, hj, hdt⟩ i hi
    apply List.all_eq_false.mpr
    have hjlen : j < (standardize p).df.cols.length := by
      rw [hq]
      unfold standardizeDF
      simpa using hj
    refine ⟨((standardize p).df.cols.getD j default).cells.getD i none, ?_, ?_⟩
    · unfold DF.rowAt
      apply List.mem_map.mpr
      refine ⟨(standardize p).df.cols.getD j default, ?_, rfl⟩
      exact colAt_mem hjlen
    · have := hsomeAt j hj hdt i hi
      unfold DF.cellAt DF.colAt at this
      rw [this]
      unfold stdTextCell
      simp
  · intro j hj hdt
    have hnomiss : ((standardize p).df.colAt j).cells.any
        (fun c => c.isNone) = false := by
      apply List.any_eq_false.mpr
      intro c hc
      rw [hcells j hj hdt] at hc
      obtain ⟨c0, _, rfl⟩ := List.mem_map.mp hc
      simp [stdTextCell]
    have hqe : (standardize p).df.isEmpty = false := by
      rw [hq, standardizeDF_isEmpty]
      exact he
    have himp : (impute_missing (standardize p)).df =
        imputeDF (standardize p).df := by
      simp [impute_missing, hqe]
    have hjlen : j < (standardize p).df.cols.length := by
      rw [hq]
      unfold standardizeDF
      simpa using hj
    rw [himp, imputeDF_colAt hjlen]
    unfold imputeColF imputeCells
    rw [if_neg (by rw [hnomiss]; simp)]

/-- A nonempty store with a text column holding a missing value and a
fully missing numeric column. -/
def dfN : DF :=
  ⟨2,
    [⟨"t", DType.text, [some (Val.str "a"), none]⟩,
     ⟨"n", DType.numeric, [none, none]⟩]⟩

theorem C10_witness :
    dfN.wf = true ∧ dfN.isEmpty = false ∧
    (standardize (initPipeline dfN)).df.cellAt 0 1 = some (Val.str "nan") ∧
    allMissingRow ((standardize (initPipeline dfN)).df.rowAt 1) = false ∧
    (impute_missing (standardize (initPipeline dfN))).df.colAt 0 =
      (standardize (initPipeline dfN)).df.colAt 0 := by
  have h := C10_text_nan (initPipeline dfN) (by with_unfolding_all decide)
    (by with_unfolding_all decide)
  refine ⟨by with_unfolding_all decide, by with_unfolding_all decide, ?_, ?_, ?_⟩
  · exact (h.1 0 (by with_unfolding_all decide) (by with_unfolding_all decide)).2 1
      (by with_unfolding_all decide) (by with_unfolding_all decide)
  · exact h.2.1 ⟨0, by with_unfolding_all decide, by with_unfolding_all decide⟩ 1
      (by with_unfolding_all decide)
  · exact h.2.2 0 (by with_unfolding_all decide) (by with_unfolding_all decide)

end DataCleaner
